import Mathlib

/-!
Verification of the execution-guard gate: policy evaluator, authority
pipeline, execution kernel and the OpenClaw pre-validation adapter.

The development shallowly embeds the TypeScript sources:
* `canonical_stringify.ts` / `canonical_proposal.ts` — deterministic
  sorted-key JSON serialization and the canonical proposal;
* `core/evaluate.ts` — the fail-closed policy evaluator;
* `authority_pipeline.ts` — token issuance with the STRICT/PERMISSIVE
  mode matrix;
* `execution_kernel.ts` (7-step variant) — the verification chain that
  guards the single spawn site;
* `adapters/openclaw/*` — shell-string rejection, scope elevation and
  the human-approval token store.

External effects (clock, file system, yaml parser, environment, fresh
identifiers) are supplied by an explicit `World` record.  The SHA-256
digest is a parameter `H : String → String`; theorems that need
collision-freeness state `Function.Injective H` explicitly.  ED25519 is
modelled symbolically (a signature is a constructor carrying the signed
message and the key identity), the standard symbolic-cryptography
idealization: correctness and unforgeability hold by construction.
-/

namespace ExecutionGuard

/-! ### Characters used by the JSON serializer -/

def quoteC : Char := Char.ofNat 34
def bslashC : Char := Char.ofNat 92
def lbrackC : Char := Char.ofNat 91
def rbrackC : Char := Char.ofNat 93
def lbraceC : Char := Char.ofNat 123
def rbraceC : Char := Char.ofNat 125
def colonC : Char := Char.ofNat 58
def commaC : Char := Char.ofNat 44

/-- Lower-case hex digit, as produced by JSON.stringify \u00XX escapes. -/
def hexDigitChar (n : Nat) : Char :=
  if n < 10 then Char.ofNat (48 + n) else Char.ofNat (87 + n)

/-- Numeric value of a lower-case hex digit. -/
def hexVal (c : Char) : Nat :=
  if 48 ≤ c.toNat ∧ c.toNat ≤ 57 then c.toNat - 48
  else if 97 ≤ c.toNat ∧ c.toNat ≤ 102 then c.toNat - 87
  else 0

/-- Escape one character the way `JSON.stringify` escapes characters
inside a string literal: quote and backslash get a backslash escape, the
five named control characters get their short escapes, all other control
characters below U+0020 get a `\u00XX` escape, and everything else is
emitted verbatim. -/
def escChar (c : Char) : List Char :=
  if c = quoteC then [bslashC, quoteC]
  else if c = bslashC then [bslashC, bslashC]
  else if c = Char.ofNat 8 then [bslashC, 'b']
  else if c = Char.ofNat 9 then [bslashC, 't']
  else if c = Char.ofNat 10 then [bslashC, 'n']
  else if c = Char.ofNat 12 then [bslashC, 'f']
  else if c = Char.ofNat 13 then [bslashC, 'r']
  else if c.toNat < 32 then
    [bslashC, 'u', '0', '0', hexDigitChar (c.toNat / 16), hexDigitChar (c.toNat % 16)]
  else [c]

/-- Escape a whole character sequence. -/
def escStr (s : List Char) : List Char := (s.map escChar).flatten

/-- Body of `JSON.stringify` on a string: opening quote, escaped
characters, closing quote. -/
def jsonQuote (s : List Char) : List Char := quoteC :: escStr s ++ [quoteC]

/-- Decode a short backslash escape. -/
def unescShort (e : Char) : Option Char :=
  if e = quoteC then some quoteC
  else if e = bslashC then some bslashC
  else if e = 'b' then some (Char.ofNat 8)
  else if e = 't' then some (Char.ofNat 9)
  else if e = 'n' then some (Char.ofNat 10)
  else if e = 'f' then some (Char.ofNat 12)
  else if e = 'r' then some (Char.ofNat 13)
  else none

/-- Parse the escaped body of a JSON string up to (and including) the
closing quote; returns the decoded characters and the remaining input.
Used only to prove that escaping is injective. -/
def unesc : List Char → Option (List Char × List Char)
  | [] => none
  | c :: rest =>
    if c = quoteC then some ([], rest)
    else if c = bslashC then
      match rest with
      | [] => none
      | e :: rest2 =>
        if e = 'u' then
          match rest2 with
          | [] => none
          | [_] => none
          | [_, _] => none
          | [_, _, _] => none
          | h1 :: h2 :: h3 :: h4 :: rest3 =>
            match unesc rest3 with
            | some (v, r) =>
              some (Char.ofNat (hexVal h1 * 4096 + hexVal h2 * 256 +
                hexVal h3 * 16 + hexVal h4) :: v, r)
            | none => none
        else
          match unescShort e with
          | some d =>
            match unesc rest2 with
            | some (v, r) => some (d :: v, r)
            | none => none
          | none => none
    else
      match unesc rest with
      | some (v, r) => some (c :: v, r)
      | none => none

theorem hexVal_hexDigitChar_fin : ∀ i : Fin 16, hexVal (hexDigitChar i.val) = i.val := by
  decide

theorem hexVal_hexDigitChar {n : Nat} (h : n < 16) : hexVal (hexDigitChar n) = n :=
  hexVal_hexDigitChar_fin ⟨n, h⟩

theorem unesc_escChar (c : Char) (t : List Char) (v r : List Char)
    (ih : unesc t = some (v, r)) :
    unesc (escChar c ++ t) = some (c :: v, r) := by
  by_cases h1 : c = quoteC
  · subst h1
    rw [show escChar quoteC ++ t = bslashC :: quoteC :: t from rfl, unesc.eq_def]
    simp +decide [unescShort, quoteC, bslashC, ih]
  by_cases h2 : c = bslashC
  · subst h2
    rw [show escChar bslashC ++ t = bslashC :: bslashC :: t from rfl, unesc.eq_def]
    simp +decide [unescShort, quoteC, bslashC, ih]
  by_cases h3 : c = Char.ofNat 8
  · subst h3
    rw [show escChar (Char.ofNat 8) ++ t = bslashC :: 'b' :: t from rfl, unesc.eq_def]
    simp +decide [unescShort, quoteC, bslashC, ih]
  by_cases h4 : c = Char.ofNat 9
  · subst h4
    rw [show escChar (Char.ofNat 9) ++ t = bslashC :: 't' :: t from rfl, unesc.eq_def]
    simp +decide [unescShort, quoteC, bslashC, ih]
  by_cases h5 : c = Char.ofNat 10
  · subst h5
    rw [show escChar (Char.ofNat 10) ++ t = bslashC :: 'n' :: t from rfl, unesc.eq_def]
    simp +decide [unescShort, quoteC, bslashC, ih]
  by_cases h6 : c = Char.ofNat 12
  · subst h6
    rw [show escChar (Char.ofNat 12) ++ t = bslashC :: 'f' :: t from rfl, unesc.eq_def]
    simp +decide [unescShort, quoteC, bslashC, ih]
  by_cases h7 : c = Char.ofNat 13
  · subst h7
    rw [show escChar (Char.ofNat 13) ++ t = bslashC :: 'r' :: t from rfl, unesc.eq_def]
    simp +decide [unescShort, quoteC, bslashC, ih]
  by_cases h8 : c.toNat < 32
  · have hhi : c.toNat / 16 < 16 := by omega
    have hlo : c.toNat % 16 < 16 := by omega
    have h1' : hexVal (hexDigitChar (c.toNat / 16)) = c.toNat / 16 :=
      hexVal_hexDigitChar hhi
    have h2' : hexVal (hexDigitChar (c.toNat % 16)) = c.toNat % 16 :=
      hexVal_hexDigitChar hlo
    have hA : hexVal '0' * 4096 + hexVal '0' * 256 +
        hexVal (hexDigitChar (c.toNat / 16)) * 16 +
        hexVal (hexDigitChar (c.toNat % 16)) = c.toNat := by
      rw [show hexVal '0' = 0 from by decide, h1', h2']
      omega
    have hesc : escChar c =
        [bslashC, 'u', '0', '0', hexDigitChar (c.toNat / 16), hexDigitChar (c.toNat % 16)] := by
      simp [escChar, h1, h2, h3, h4, h5, h6, h7, h8]
    rw [hesc, show
      [bslashC, 'u', '0', '0', hexDigitChar (c.toNat / 16), hexDigitChar (c.toNat % 16)] ++ t =
      bslashC :: 'u' :: '0' :: '0' ::
        hexDigitChar (c.toNat / 16) :: hexDigitChar (c.toNat % 16) :: t from rfl, unesc.eq_def]
    simp +decide [quoteC, bslashC, ih, hA, Char.ofNat_toNat]
  · have hesc : escChar c = [c] := by
      simp [escChar, h1, h2, h3, h4, h5, h6, h7, h8]
    rw [hesc, show [c] ++ t = c :: t from rfl, unesc.eq_def]
    simp [h1, h2, ih]

theorem unesc_round (v r : List Char) : unesc (escStr v ++ quoteC :: r) = some (v, r) := by
  induction v with
  | nil =>
    rw [show escStr [] ++ quoteC :: r = quoteC :: r from rfl, unesc.eq_def]
    simp
  | cons c v ih =>
    have : escStr (c :: v) = escChar c ++ escStr v := by
      simp [escStr]
    rw [this, List.append_assoc]
    exact unesc_escChar c _ v r ih

/-- Escaped-and-quoted segments of a byte stream can be peeled off
unambiguously: JSON string escaping is a prefix-free code. -/
theorem jsonQuote_peel {v1 v2 r1 r2 : List Char}
    (h : jsonQuote v1 ++ r1 = jsonQuote v2 ++ r2) : v1 = v2 ∧ r1 = r2 := by
  have h' : escStr v1 ++ quoteC :: r1 = escStr v2 ++ quoteC :: r2 := by
    have h2 := h
    simp only [jsonQuote, List.cons_append, List.append_assoc, List.singleton_append,
      List.cons.injEq, true_and] at h2
    exact h2
  have e1 := unesc_round v1 r1
  rw [h', unesc_round v2 r2] at e1
  injection e1 with e2
  injection e2 with e3 e4
  exact ⟨e3.symm, e4.symm⟩

/-! ### JSON-like values and the canonical (sorted-key) serializer

`canonical_stringify.ts` serializes arbitrary structured values:
arrays in insertion order, objects with keys sorted, primitives via
`JSON.stringify`.  Every value this repository serializes (canonical
proposals, token payloads, environment components) is built from
strings, arrays and string-keyed objects, so the embedded value type
has exactly those three constructors. -/

inductive JVal where
  | str (s : String)
  | arr (elems : List JVal)
  | obj (fields : List (String × JVal))

/-- Insert a field into a key-sorted field list (insertion sort step).
Models the key reordering performed by `Object.keys(obj).sort()`. -/
def insertField (kv : String × JVal) : List (String × JVal) → List (String × JVal)
  | [] => [kv]
  | kv2 :: rest =>
    if kv2.1.data ≤ kv.1.data then kv2 :: insertField kv rest else kv :: kv2 :: rest

/-- Sort an object's fields by key (lexicographic on the character
sequence, which agrees with the UTF-16 code-unit order `Array.sort()`
uses on the ASCII keys appearing throughout the repository). -/
def sortFields : List (String × JVal) → List (String × JVal)
  | [] => []
  | kv :: rest => insertField kv (sortFields rest)

/-- Join serialized pieces with commas, as `.join(',')` does. -/
def commaJoin : List (List Char) → List Char
  | [] => []
  | [x] => x
  | x :: y :: rest => x ++ commaC :: commaJoin (y :: rest)

theorem mem_insertField {kv x : String × JVal} {l : List (String × JVal)}
    (h : x ∈ insertField kv l) : x = kv ∨ x ∈ l := by
  induction l with
  | nil => simpa [insertField] using h
  | cons kv2 rest ih =>
    rw [insertField] at h
    by_cases hle : kv2.1.data ≤ kv.1.data
    · rw [if_pos hle] at h
      rcases List.mem_cons.mp h with h2 | h2
      · exact Or.inr (by simp [h2])
      · rcases ih h2 with h3 | h3
        · exact Or.inl h3
        · exact Or.inr (List.mem_cons_of_mem _ h3)
    · rw [if_neg hle] at h
      rcases List.mem_cons.mp h with h2 | h2
      · exact Or.inl h2
      · exact Or.inr h2

theorem mem_sortFields {x : String × JVal} {l : List (String × JVal)}
    (h : x ∈ sortFields l) : x ∈ l := by
  induction l with
  | nil => simp [sortFields] at h
  | cons kv rest ih =>
    rw [sortFields] at h
    rcases mem_insertField h with h2 | h2
    · simp [h2]
    · exact List.mem_cons_of_mem _ (ih h2)

/-- The canonical serializer of `canonical_stringify.ts` (also
`stableStringify` in `canonical_proposal.ts`, which is byte-identical):
arrays keep insertion order, object keys are sorted, strings are
JSON-quoted. -/
def serJVal : JVal → List Char
  | .str s => jsonQuote s.data
  | .arr l => lbrackC :: commaJoin (l.attach.map fun x => serJVal x.1) ++ [rbrackC]
  | .obj f => lbraceC :: commaJoin ((sortFields f).attach.map fun x =>
      jsonQuote x.1.1.data ++ colonC :: serJVal x.1.2) ++ [rbraceC]
termination_by v => sizeOf v
decreasing_by
  · have h1 := List.sizeOf_lt_of_mem x.2
    simp only [JVal.arr.sizeOf_spec]
    omega
  · have h1 := List.sizeOf_lt_of_mem (mem_sortFields x.2)
    have h2 : sizeOf x.1.2 < sizeOf x.1 := by
      obtain ⟨a, b⟩ := x.1
      simp
    simp only [JVal.obj.sizeOf_spec]
    omega

/-- `canonicalStringify` from `canonical_stringify.ts`. -/
def canonicalStringify (v : JVal) : String := String.mk (serJVal v)

theorem serJVal_str (s : String) : serJVal (.str s) = jsonQuote s.data := by
  rw [serJVal]

theorem serJVal_arr (l : List JVal) :
    serJVal (.arr l) = lbrackC :: commaJoin (l.map serJVal) ++ [rbrackC] := by
  rw [serJVal, List.attach_map_coe]

/-- Serialization of a single key/value pair inside an object. -/
def serField (kv : String × JVal) : List Char :=
  jsonQuote kv.1.data ++ colonC :: serJVal kv.2

theorem serJVal_obj (f : List (String × JVal)) :
    serJVal (.obj f) =
      lbraceC :: commaJoin ((sortFields f).map serField) ++ [rbraceC] := by
  rw [serJVal]
  rw [show (fun (x : {x // x ∈ sortFields f}) =>
    jsonQuote x.1.1.data ++ colonC :: serJVal x.1.2) =
    (fun (x : {x // x ∈ sortFields f}) => serField x.1) from rfl]
  rw [List.attach_map_coe]

/-! ### Normalization: the semantic view of a structured value

Two structured values are semantically equal (same data, possibly
different key insertion order) exactly when their recursive key-sorted
normal forms coincide. -/

/-- Recursively sort every object's fields by key. -/
def normJVal : JVal → JVal
  | .str s => .str s
  | .arr l => .arr (l.attach.map fun x => normJVal x.1)
  | .obj f => .obj (sortFields (f.attach.map fun x => (x.1.1, normJVal x.1.2)))
termination_by v => sizeOf v
decreasing_by
  · have h1 := List.sizeOf_lt_of_mem x.2
    simp only [JVal.arr.sizeOf_spec]
    omega
  · have h1 := List.sizeOf_lt_of_mem x.2
    have h2 : sizeOf x.1.2 < sizeOf x.1 := by
      obtain ⟨a, b⟩ := x.1
      simp
    simp only [JVal.obj.sizeOf_spec]
    omega

/-- Every object reachable inside the value has pairwise-distinct keys
(JavaScript objects cannot carry duplicate keys, so every value the
code serializes satisfies this). -/
def goodKeysB : JVal → Bool
  | .str _ => true
  | .arr l => l.attach.all fun x => goodKeysB x.1
  | .obj f => decide ((f.map Prod.fst).Nodup) && (f.attach.all fun x => goodKeysB x.1.2)
termination_by v => sizeOf v
decreasing_by
  · have h1 := List.sizeOf_lt_of_mem x.2
    simp only [JVal.arr.sizeOf_spec]
    omega
  · have h1 := List.sizeOf_lt_of_mem x.2
    have h2 : sizeOf x.1.2 < sizeOf x.1 := by
      obtain ⟨a, b⟩ := x.1
      simp
    simp only [JVal.obj.sizeOf_spec]
    omega

theorem normJVal_str (s : String) : normJVal (.str s) = .str s := by
  rw [normJVal]

theorem normJVal_arr (l : List JVal) :
    normJVal (.arr l) = .arr (l.map normJVal) := by
  rw [normJVal, List.attach_map_coe]

theorem normJVal_obj (f : List (String × JVal)) :
    normJVal (.obj f) =
      .obj (sortFields (f.map fun kv => (kv.1, normJVal kv.2))) := by
  rw [normJVal]
  exact congrArg (fun t => JVal.obj (sortFields t))
    (List.attach_map_coe f (fun kv => (kv.1, normJVal kv.2)))

theorem goodKeysB_arr_iff (l : List JVal) :
    goodKeysB (.arr l) = true ↔ ∀ v ∈ l, goodKeysB v = true := by
  rw [goodKeysB]
  simp only [List.all_eq_true]
  constructor
  · intro h v hv
    exact h ⟨v, hv⟩ (List.mem_attach _ _)
  · intro h x _
    exact h x.1 x.2

theorem goodKeysB_obj_iff (f : List (String × JVal)) :
    goodKeysB (.obj f) = true ↔
      ((f.map Prod.fst).Nodup ∧ ∀ kv ∈ f, goodKeysB kv.2 = true) := by
  rw [goodKeysB]
  simp only [Bool.and_eq_true, List.all_eq_true, decide_eq_true_eq]
  constructor
  · intro h
    exact ⟨h.1, fun kv hkv => h.2 ⟨kv, hkv⟩ (List.mem_attach _ _)⟩
  · intro h
    exact ⟨h.1, fun x _ => h.2 x.1 x.2⟩

/-! ### Sortedness facts about `sortFields` -/

theorem insertField_perm (kv : String × JVal) (l : List (String × JVal)) :
    List.Perm (insertField kv l) (kv :: l) := by
  induction l with
  | nil => simp [insertField]
  | cons kv2 rest ih =>
    rw [insertField]
    by_cases hle : kv2.1.data ≤ kv.1.data
    · rw [if_pos hle]
      exact (ih.cons kv2).trans (List.Perm.swap kv kv2 rest)
    · rw [if_neg hle]

theorem sortFields_perm (l : List (String × JVal)) :
    List.Perm (sortFields l) l := by
  induction l with
  | nil => simp [sortFields]
  | cons kv rest ih =>
    rw [sortFields]
    exact (insertField_perm kv (sortFields rest)).trans (ih.cons kv)

theorem insertField_pairwise {kv : String × JVal} {l : List (String × JVal)}
    (h : l.Pairwise (fun a b => a.1.data ≤ b.1.data)) :
    (insertField kv l).Pairwise (fun a b => a.1.data ≤ b.1.data) := by
  induction l with
  | nil => simp [insertField]
  | cons kv2 rest ih =>
    rw [insertField]
    rcases List.pairwise_cons.mp h with ⟨h1, h2⟩
    by_cases hle : kv2.1.data ≤ kv.1.data
    · rw [if_pos hle]
      refine List.pairwise_cons.mpr ⟨?_, ih h2⟩
      intro b hb
      rcases mem_insertField hb with h3 | h3
      · rw [h3]; exact hle
      · exact h1 b h3
    · rw [if_neg hle]
      refine List.pairwise_cons.mpr ⟨?_, h⟩
      intro b hb
      rcases List.mem_cons.mp hb with h3 | h3
      · rw [h3]; exact le_of_not_le hle
      · exact le_trans (le_of_not_le hle) (h1 b h3)

theorem sortFields_pairwise (l : List (String × JVal)) :
    (sortFields l).Pairwise (fun a b => a.1.data ≤ b.1.data) := by
  induction l with
  | nil => simp [sortFields]
  | cons kv rest ih =>
    rw [sortFields]
    exact insertField_pairwise ih

theorem pairwise_lt_of_le_nodup {l : List (String × JVal)}
    (hle : l.Pairwise (fun a b => a.1.data ≤ b.1.data)) (hnd : (l.map Prod.fst).Nodup) :
    l.Pairwise (fun a b => a.1.data < b.1.data) := by
  have hne : l.Pairwise (fun a b => a.1 ≠ b.1) := (List.pairwise_map.mp hnd)
  exact (hle.and hne).imp fun h => lt_of_le_of_ne h.1 fun hd => h.2 (String.ext hd)

theorem eq_of_perm_sorted_keys {l₁ l₂ : List (String × JVal)}
    (hp : List.Perm l₁ l₂)
    (h₁ : l₁.Pairwise (fun a b => a.1.data ≤ b.1.data))
    (h₂ : l₂.Pairwise (fun a b => a.1.data ≤ b.1.data))
    (hnd : (l₁.map Prod.fst).Nodup) : l₁ = l₂ := by
  have hnd₂ : (l₂.map Prod.fst).Nodup := ((hp.map Prod.fst).nodup_iff).mp hnd
  have hlt₁ := pairwise_lt_of_le_nodup h₁ hnd
  have hlt₂ := pairwise_lt_of_le_nodup h₂ hnd₂
  haveI : IsAntisymm (String × JVal) (fun a b => a.1.data < b.1.data) :=
    ⟨fun _ _ hab hba => ((lt_asymm hab) hba).elim⟩
  exact List.eq_of_perm_of_sorted hp hlt₁ hlt₂

theorem sortFields_of_sorted {l : List (String × JVal)}
    (h : l.Pairwise (fun a b => a.1.data ≤ b.1.data)) (hnd : (l.map Prod.fst).Nodup) :
    sortFields l = l :=
  eq_of_perm_sorted_keys (sortFields_perm l) (sortFields_pairwise l)
    h (((sortFields_perm l).map Prod.fst).nodup_iff.mpr hnd)

theorem sortFields_map_keyfix {g : String × JVal → String × JVal}
    (hg : ∀ kv, (g kv).1 = kv.1) {f : List (String × JVal)}
    (hnd : (f.map Prod.fst).Nodup) :
    sortFields (f.map g) = (sortFields f).map g := by
  have hkeys : ∀ m : List (String × JVal), (m.map g).map Prod.fst = m.map Prod.fst := by
    intro m
    rw [List.map_map]
    exact List.map_congr_left fun kv _ => hg kv
  have hndg : ((f.map g).map Prod.fst).Nodup := by rw [hkeys]; exact hnd
  refine eq_of_perm_sorted_keys ?_ (sortFields_pairwise _) ?_ ?_
  · exact (sortFields_perm (f.map g)).trans ((sortFields_perm f).symm.map g)
  · have h1 := sortFields_pairwise f
    have h2 : ((sortFields f).map g).Pairwise (fun a b => a.1.data ≤ b.1.data) := by
      rw [List.pairwise_map]
      exact h1.imp fun h => by rw [hg, hg]; exact h
    exact h2
  · exact (((sortFields_perm (f.map g))).map Prod.fst).nodup_iff.mpr hndg

/-- Serializing a value and serializing its key-sorted normal form give
the same bytes (provided no object carries duplicate keys, which is
automatic for values coming from JavaScript objects).  This is the core
of the serializer's determinism contract. -/
theorem serJVal_normJVal : ∀ (v : JVal), goodKeysB v = true →
    serJVal (normJVal v) = serJVal v := by
  intro v
  induction v using normJVal.induct with
  | case1 s => intro _; rw [normJVal_str]
  | case2 l ih =>
    intro h
    rw [normJVal_arr, serJVal_arr, serJVal_arr]
    congr 2
    rw [List.map_map]
    refine congrArg commaJoin (List.map_congr_left fun v hv => ?_)
    exact ih ⟨v, hv⟩ ((goodKeysB_arr_iff l).mp h v hv)
  | case3 f ih =>
    intro h
    obtain ⟨hnd, hall⟩ := (goodKeysB_obj_iff f).mp h
    rw [normJVal_obj, serJVal_obj, serJVal_obj]
    have hg : ∀ kv : String × JVal, ((fun kv => (kv.1, normJVal kv.2)) kv).1 = kv.1 :=
      fun _ => rfl
    have hkeys : ((f.map fun kv => (kv.1, normJVal kv.2)).map Prod.fst).Nodup := by
      rw [List.map_map]
      have he : (List.map (Prod.fst ∘ fun kv => (kv.1, normJVal kv.2)) f) = f.map Prod.fst :=
        List.map_congr_left fun kv _ => rfl
      rw [he]; exact hnd
    have h1 : sortFields (sortFields (f.map fun kv => (kv.1, normJVal kv.2))) =
        sortFields (f.map fun kv => (kv.1, normJVal kv.2)) := by
      refine sortFields_of_sorted (sortFields_pairwise _) ?_
      exact ((sortFields_perm _).map Prod.fst).nodup_iff.mpr hkeys
    rw [h1, sortFields_map_keyfix hg hnd, List.map_map]
    congr 2
    refine congrArg commaJoin (List.map_congr_left fun kv hkv => ?_)
    have hkv2 : kv ∈ f := mem_sortFields hkv
    have hser := ih ⟨kv, hkv2⟩ (hall kv hkv2)
    simp only [Function.comp_apply, serField]
    rw [hser]

/-- Serializer determinism: semantically equal structures (equal after
recursively forgetting key insertion order) serialize identically. -/
theorem canonicalStringify_congr (v₁ v₂ : JVal)
    (h₁ : goodKeysB v₁ = true) (h₂ : goodKeysB v₂ = true)
    (h : normJVal v₁ = normJVal v₂) :
    canonicalStringify v₁ = canonicalStringify v₂ := by
  unfold canonicalStringify
  rw [← serJVal_normJVal v₁ h₁, ← serJVal_normJVal v₂ h₂, h]

/-! ### Peeling serialized string arrays -/

/-- Comma-joined serialization of the elements of a string array. -/
def serStrElems (l : List String) : List Char :=
  commaJoin (l.map fun s => jsonQuote s.data)

theorem serArr_strs (l : List String) :
    serJVal (.arr (l.map .str)) = lbrackC :: serStrElems l ++ [rbrackC] := by
  rw [serJVal_arr, List.map_map, serStrElems]
  congr 2
  exact congrArg commaJoin (List.map_congr_left fun s _ => serJVal_str s)

theorem serStrElems_peel : ∀ {a1 a2 : List String} {r1 r2 : List Char},
    serStrElems a1 ++ rbrackC :: r1 = serStrElems a2 ++ rbrackC :: r2 →
    a1 = a2 ∧ r1 = r2 := by
  intro a1
  induction a1 with
  | nil =>
    intro a2 r1 r2 h
    cases a2 with
    | nil =>
      simp only [serStrElems, List.map, commaJoin, List.nil_append] at h
      injection h with _ h2
      exact ⟨rfl, h2⟩
    | cons s2 t2 =>
      cases t2 with
      | nil =>
        simp only [serStrElems, List.map, commaJoin, List.nil_append, jsonQuote,
          List.cons_append] at h
        injection h with h1 _
        exact absurd h1 (by decide)
      | cons s3 t3 =>
        simp only [serStrElems, List.map, commaJoin, List.nil_append, jsonQuote,
          List.cons_append, List.append_assoc] at h
        injection h with h1 _
        exact absurd h1 (by decide)
  | cons s1 t1 ih =>
    intro a2 r1 r2 h
    cases a2 with
    | nil =>
      cases t1 with
      | nil =>
        simp only [serStrElems, List.map, commaJoin, List.nil_append, jsonQuote,
          List.cons_append] at h
        injection h with h1 _
        exact absurd h1 (by decide)
      | cons s3 t3 =>
        simp only [serStrElems, List.map, commaJoin, List.nil_append, jsonQuote,
          List.cons_append, List.append_assoc] at h
        injection h with h1 _
        exact absurd h1 (by decide)
    | cons s2 t2 =>
      cases t1 with
      | nil =>
        cases t2 with
        | nil =>
          simp only [serStrElems, List.map, commaJoin, List.nil_append] at h
          obtain ⟨hs, hr⟩ := jsonQuote_peel h
          injection hr with _ hr2
          exact ⟨by rw [String.ext hs], hr2⟩
        | cons s3 t3 =>
          simp only [serStrElems, List.map, commaJoin, List.append_assoc,
            List.cons_append] at h
          obtain ⟨hs, hr⟩ := jsonQuote_peel h
          injection hr with h1 _
          exact absurd h1 (by decide)
      | cons s3 t3 =>
        cases t2 with
        | nil =>
          simp only [serStrElems, List.map, commaJoin, List.append_assoc,
            List.cons_append] at h
          obtain ⟨hs, hr⟩ := jsonQuote_peel h
          injection hr with h1 _
          exact absurd h1 (by decide)
        | cons s4 t4 =>
          simp only [serStrElems, List.map, commaJoin, List.append_assoc,
            List.cons_append] at h
          obtain ⟨hs, hr⟩ := jsonQuote_peel h
          injection hr with _ hr2
          have hr3 : serStrElems (s3 :: t3) ++ rbrackC :: r1 =
              serStrElems (s4 :: t4) ++ rbrackC :: r2 := by
            simpa [serStrElems, List.map] using hr2
          obtain ⟨ht, hrr⟩ := ih hr3
          exact ⟨by rw [String.ext hs, ht], hrr⟩

/-- Peeling a serialized string array off the front of a byte stream. -/
theorem strArr_peel {a1 a2 : List String} {r1 r2 : List Char}
    (h : serJVal (.arr (a1.map .str)) ++ r1 = serJVal (.arr (a2.map .str)) ++ r2) :
    a1 = a2 ∧ r1 = r2 := by
  rw [serArr_strs, serArr_strs] at h
  simp only [List.cons_append, List.append_assoc, List.singleton_append] at h
  injection h with _ h2
  exact serStrElems_peel h2

/-! ### The canonical proposal (`canonical_proposal.ts`) -/

/-- Immutable record describing an execution request
(interface `CanonicalProposal`). -/
structure CanonicalProposal where
  command : String
  args : List String
  policy_path : String
  policy_hash : String
  guard_version : String
  timestamp_floor : String
deriving DecidableEq

/-- The object value serialized by `canonicalHash`, fields listed in the
insertion order used by `buildCanonicalProposal`. -/
def proposalJVal (p : CanonicalProposal) : JVal :=
  .obj [("command", .str p.command),
        ("args", .arr (p.args.map .str)),
        ("policy_path", .str p.policy_path),
        ("policy_hash", .str p.policy_hash),
        ("guard_version", .str p.guard_version),
        ("timestamp_floor", .str p.timestamp_floor)]

theorem sortFields_proposal (v1 v2 v3 v4 v5 v6 : JVal) :
    sortFields [("command", v1), ("args", v2), ("policy_path", v3),
      ("policy_hash", v4), ("guard_version", v5), ("timestamp_floor", v6)] =
    [("args", v2), ("command", v1), ("guard_version", v5),
      ("policy_hash", v4), ("policy_path", v3), ("timestamp_floor", v6)] := by
  simp +decide [sortFields, insertField]

/-- Serialization of canonical proposals is injective: two proposals
with the same canonical byte string are the same record. -/
theorem proposal_ser_inj {p1 p2 : CanonicalProposal}
    (h : serJVal (proposalJVal p1) = serJVal (proposalJVal p2)) : p1 = p2 := by
  obtain ⟨c1, a1, pp1, ph1, gv1, ts1⟩ := p1
  obtain ⟨c2, a2, pp2, ph2, gv2, ts2⟩ := p2
  rw [proposalJVal, proposalJVal, serJVal_obj, serJVal_obj,
    sortFields_proposal, sortFields_proposal] at h
  simp only [List.map_cons, List.map_nil, serField, serJVal_str, commaJoin,
    List.cons_append, List.append_assoc, List.nil_append] at h
  injection h with _ h
  replace h := List.append_cancel_left h
  injection h with _ h
  obtain ⟨hargs, h⟩ := strArr_peel h
  injection h with _ h
  replace h := List.append_cancel_left h
  injection h with _ h
  obtain ⟨hcmd, h⟩ := jsonQuote_peel h
  injection h with _ h
  replace h := List.append_cancel_left h
  injection h with _ h
  obtain ⟨hgv, h⟩ := jsonQuote_peel h
  injection h with _ h
  replace h := List.append_cancel_left h
  injection h with _ h
  obtain ⟨hph, h⟩ := jsonQuote_peel h
  injection h with _ h
  replace h := List.append_cancel_left h
  injection h with _ h
  obtain ⟨hpp, h⟩ := jsonQuote_peel h
  injection h with _ h
  replace h := List.append_cancel_left h
  injection h with _ h
  obtain ⟨hts, _⟩ := jsonQuote_peel h
  rw [String.ext hcmd, hargs, String.ext hgv, String.ext hph,
    String.ext hpp, String.ext hts]

/-! ### Token records (`execution_kernel.ts` / `authority_pipeline.ts`) -/

/-- `scope.constraints` of an issued token.  `audited_permit` is present
exactly when the pipeline issued a policy-miss ALLOW under
PERMISSIVE + `allow_with_audit`. -/
structure TokenConstraints where
  policy_version : String
  gate_mode : String
  guard_version : String
  audited_permit : Option String
deriving DecidableEq

/-- Structured scope bound to the token (interface `TokenScope`). -/
structure TokenScope where
  action : String
  resource : String
  constraints : TokenConstraints
deriving DecidableEq

/-- The signed part of a `VerifiedToken`: every field except
`issuer_signature` and `public_key_hex`. -/
structure TokenPayload where
  token_id : String
  proposal_hash : String
  policy_hash : String
  environment_fingerprint : String
  policy_version : String
  decision : String
  audit_ref : String
  expires_at : String
  issued_at : String
  scope : TokenScope
  gate_mode : String
  guard_version : String
deriving DecidableEq

/-- Constraints as the object the code serializes (insertion order of
the TS literal; the optional `audited_permit` is spread last). -/
def constraintsJVal (c : TokenConstraints) : JVal :=
  .obj ([("policy_version", .str c.policy_version),
         ("gate_mode", .str c.gate_mode),
         ("guard_version", .str c.guard_version)] ++
        (match c.audited_permit with
         | some a => [("audited_permit", JVal.str a)]
         | none => []))

def scopeJVal (s : TokenScope) : JVal :=
  .obj [("action", .str s.action),
        ("resource", .str s.resource),
        ("constraints", constraintsJVal s.constraints)]

def payloadJVal (t : TokenPayload) : JVal :=
  .obj [("token_id", .str t.token_id),
        ("proposal_hash", .str t.proposal_hash),
        ("policy_hash", .str t.policy_hash),
        ("environment_fingerprint", .str t.environment_fingerprint),
        ("policy_version", .str t.policy_version),
        ("decision", .str t.decision),
        ("audit_ref", .str t.audit_ref),
        ("expires_at", .str t.expires_at),
        ("issued_at", .str t.issued_at),
        ("scope", scopeJVal t.scope),
        ("gate_mode", .str t.gate_mode),
        ("guard_version", .str t.guard_version)]

theorem sortFields_constraints_none (v1 v2 v3 : JVal) :
    sortFields [("policy_version", v1), ("gate_mode", v2), ("guard_version", v3)] =
    [("gate_mode", v2), ("guard_version", v3), ("policy_version", v1)] := by
  simp +decide [sortFields, insertField]

theorem sortFields_constraints_some (v1 v2 v3 v4 : JVal) :
    sortFields [("policy_version", v1), ("gate_mode", v2), ("guard_version", v3),
      ("audited_permit", v4)] =
    [("audited_permit", v4), ("gate_mode", v2), ("guard_version", v3),
      ("policy_version", v1)] := by
  simp +decide [sortFields, insertField]

theorem sortFields_scope (v1 v2 v3 : JVal) :
    sortFields [("action", v1), ("resource", v2), ("constraints", v3)] =
    [("action", v1), ("constraints", v3), ("resource", v2)] := by
  simp +decide [sortFields, insertField]

theorem sortFields_payload (v1 v2 v3 v4 v5 v6 v7 v8 v9 v10 v11 v12 : JVal) :
    sortFields [("token_id", v1), ("proposal_hash", v2), ("policy_hash", v3),
      ("environment_fingerprint", v4), ("policy_version", v5), ("decision", v6),
      ("audit_ref", v7), ("expires_at", v8), ("issued_at", v9), ("scope", v10),
      ("gate_mode", v11), ("guard_version", v12)] =
    [("audit_ref", v7), ("decision", v6), ("environment_fingerprint", v4),
      ("expires_at", v8), ("gate_mode", v11), ("guard_version", v12),
      ("issued_at", v9), ("policy_hash", v3), ("policy_version", v5),
      ("proposal_hash", v2), ("scope", v10), ("token_id", v1)] := by
  simp +decide [sortFields, insertField]

theorem constraints_peel : ∀ {c1 c2 : TokenConstraints} {r1 r2 : List Char},
    serJVal (constraintsJVal c1) ++ r1 = serJVal (constraintsJVal c2) ++ r2 →
    c1 = c2 ∧ r1 = r2 := by
  intro c1 c2 r1 r2 h
  obtain ⟨pv1, gm1, gv1, ap1⟩ := c1
  obtain ⟨pv2, gm2, gv2, ap2⟩ := c2
  cases ap1 with
  | none =>
    cases ap2 with
    | none =>
      rw [constraintsJVal, constraintsJVal] at h
      simp only [List.append_nil, List.cons_append, List.nil_append] at h
      rw [serJVal_obj, serJVal_obj, sortFields_constraints_none,
        sortFields_constraints_none] at h
      simp only [List.map_cons, List.map_nil, serField, serJVal_str, commaJoin,
        List.cons_append, List.append_assoc, List.nil_append] at h
      injection h with _ h
      replace h := List.append_cancel_left h
      injection h with _ h
      obtain ⟨hgm, h⟩ := jsonQuote_peel h
      injection h with _ h
      replace h := List.append_cancel_left h
      injection h with _ h
      obtain ⟨hgv, h⟩ := jsonQuote_peel h
      injection h with _ h
      replace h := List.append_cancel_left h
      injection h with _ h
      obtain ⟨hpv, h⟩ := jsonQuote_peel h
      injection h with _ h
      exact ⟨by rw [String.ext hgm, String.ext hgv, String.ext hpv], h⟩
    | some a2 =>
      rw [constraintsJVal, constraintsJVal] at h
      simp only [List.append_nil, List.cons_append, List.nil_append] at h
      rw [serJVal_obj, serJVal_obj, sortFields_constraints_none,
        sortFields_constraints_some] at h
      simp only [List.map_cons, List.map_nil, serField, serJVal_str, commaJoin,
        List.cons_append, List.append_assoc, List.nil_append] at h
      injection h with _ h
      obtain ⟨hk, _⟩ := jsonQuote_peel h
      exact absurd hk (by decide)
  | some a1 =>
    cases ap2 with
    | none =>
      rw [constraintsJVal, constraintsJVal] at h
      simp only [List.append_nil, List.cons_append, List.nil_append] at h
      rw [serJVal_obj, serJVal_obj, sortFields_constraints_some,
        sortFields_constraints_none] at h
      simp only [List.map_cons, List.map_nil, serField, serJVal_str, commaJoin,
        List.cons_append, List.append_assoc, List.nil_append] at h
      injection h with _ h
      obtain ⟨hk, _⟩ := jsonQuote_peel h
      exact absurd hk (by decide)
    | some a2 =>
      rw [constraintsJVal, constraintsJVal] at h
      simp only [List.append_nil, List.cons_append, List.nil_append] at h
      rw [serJVal_obj, serJVal_obj, sortFields_constraints_some,
        sortFields_constraints_some] at h
      simp only [List.map_cons, List.map_nil, serField, serJVal_str, commaJoin,
        List.cons_append, List.append_assoc, List.nil_append] at h
      injection h with _ h
      replace h := List.append_cancel_left h
      injection h with _ h
      obtain ⟨hap, h⟩ := jsonQuote_peel h
      injection h with _ h
      replace h := List.append_cancel_left h
      injection h with _ h
      obtain ⟨hgm, h⟩ := jsonQuote_peel h
      injection h with _ h
      replace h := List.append_cancel_left h
      injection h with _ h
      obtain ⟨hgv, h⟩ := jsonQuote_peel h
      injection h with _ h
      replace h := List.append_cancel_left h
      injection h with _ h
      obtain ⟨hpv, h⟩ := jsonQuote_peel h
      injection h with _ h
      exact ⟨by rw [String.ext hap, String.ext hgm, String.ext hgv, String.ext hpv],
        h⟩

theorem scope_peel {s1 s2 : TokenScope} {r1 r2 : List Char}
    (h : serJVal (scopeJVal s1) ++ r1 = serJVal (scopeJVal s2) ++ r2) :
    s1 = s2 ∧ r1 = r2 := by
  obtain ⟨a1, res1, c1⟩ := s1
  obtain ⟨a2, res2, c2⟩ := s2
  rw [scopeJVal, scopeJVal, serJVal_obj, serJVal_obj,
    sortFields_scope, sortFields_scope] at h
  simp only [List.map_cons, List.map_nil, serField, serJVal_str, commaJoin,
    List.cons_append, List.append_assoc, List.nil_append] at h
  injection h with _ h
  replace h := List.append_cancel_left h
  injection h with _ h
  obtain ⟨hact, h⟩ := jsonQuote_peel h
  injection h with _ h
  replace h := List.append_cancel_left h
  injection h with _ h
  obtain ⟨hcon, h⟩ := constraints_peel h
  injection h with _ h
  replace h := List.append_cancel_left h
  injection h with _ h
  obtain ⟨hres, h⟩ := jsonQuote_peel h
  injection h with _ h
  exact ⟨by rw [String.ext hact, String.ext hres, hcon], h⟩

/-- Serialization of token payloads is injective: the signed byte
string determines every signed field. -/
theorem payload_ser_inj {t1 t2 : TokenPayload}
    (h : serJVal (payloadJVal t1) = serJVal (payloadJVal t2)) : t1 = t2 := by
  obtain ⟨x1, x2, x3, x4, x5, x6, x7, x8, x9, x10, x11, x12⟩ := t1
  obtain ⟨y1, y2, y3, y4, y5, y6, y7, y8, y9, y10, y11, y12⟩ := t2
  rw [payloadJVal, payloadJVal, serJVal_obj, serJVal_obj,
    sortFields_payload, sortFields_payload] at h
  simp only [List.map_cons, List.map_nil, serField, serJVal_str, commaJoin,
    List.cons_append, List.append_assoc, List.nil_append] at h
  injection h with _ h
  replace h := List.append_cancel_left h
  injection h with _ h
  obtain ⟨har, h⟩ := jsonQuote_peel h
  injection h with _ h
  replace h := List.append_cancel_left h
  injection h with _ h
  obtain ⟨hdec, h⟩ := jsonQuote_peel h
  injection h with _ h
  replace h := List.append_cancel_left h
  injection h with _ h
  obtain ⟨hef, h⟩ := jsonQuote_peel h
  injection h with _ h
  replace h := List.append_cancel_left h
  injection h with _ h
  obtain ⟨hexp, h⟩ := jsonQuote_peel h
  injection h with _ h
  replace h := List.append_cancel_left h
  injection h with _ h
  obtain ⟨hgm, h⟩ := jsonQuote_peel h
  injection h with _ h
  replace h := List.append_cancel_left h
  injection h with _ h
  obtain ⟨hgv, h⟩ := jsonQuote_peel h
  injection h with _ h
  replace h := List.append_cancel_left h
  injection h with _ h
  obtain ⟨hia, h⟩ := jsonQuote_peel h
  injection h with _ h
  replace h := List.append_cancel_left h
  injection h with _ h
  obtain ⟨hph, h⟩ := jsonQuote_peel h
  injection h with _ h
  replace h := List.append_cancel_left h
  injection h with _ h
  obtain ⟨hpv, h⟩ := jsonQuote_peel h
  injection h with _ h
  replace h := List.append_cancel_left h
  injection h with _ h
  obtain ⟨hprh, h⟩ := jsonQuote_peel h
  injection h with _ h
  replace h := List.append_cancel_left h
  injection h with _ h
  obtain ⟨hsc, h⟩ := scope_peel h
  injection h with _ h
  replace h := List.append_cancel_left h
  injection h with _ h
  obtain ⟨htid, _⟩ := jsonQuote_peel h
  rw [String.ext har, String.ext hdec, String.ext hef, String.ext hexp,
    String.ext hgm, String.ext hgv, String.ext hia, String.ext hph,
    String.ext hpv, String.ext hprh, hsc, String.ext htid]

/-! ### Symbolic cryptography -/

/-- Symbolic ED25519 signature: it carries the signed message and the
identity of the ephemeral key pair that produced it (the Dolev-Yao
idealization of `crypto.sign`). -/
structure Ed25519Sig where
  message : String
  keyId : Nat
deriving DecidableEq

/-- Symbolic `crypto.sign(null, payload, privateKey)`. -/
def ed25519Sign (keyId : Nat) (message : String) : Ed25519Sig := ⟨message, keyId⟩

/-- Symbolic `crypto.verify(null, payload, publicKey, sig)`: valid
exactly for the message and key pair that produced the signature
(correctness plus ideal existential unforgeability). -/
def ed25519Verify (pubKeyId : Nat) (message : String) (sig : Ed25519Sig) : Bool :=
  sig.message == message && sig.keyId == pubKeyId

/-- A token as issued by `authority_pipeline.ts` and consumed by the
kernel (interface `VerifiedToken` of the 7-step kernel): the signed
payload plus `issuer_signature` and `public_key_hex` (the ephemeral
public key, modelled by its key identity). -/
structure VerifiedToken extends TokenPayload where
  issuer_signature : Ed25519Sig
  public_key_hex : Nat
deriving DecidableEq

/-! ### JavaScript runtime values

`yaml.parse` results and the adapter's `unknown` input are arbitrary
JS values; policy rules are carried unvalidated (`parsed as Policy` in
`loadPolicy`), so rule access uses JS member-access semantics. -/

inductive JsVal where
  | undef
  | nul
  | bool (b : Bool)
  | num (n : Int)
  | str (s : String)
  | arr (elems : List JsVal)
  | obj (fields : List (String × JsVal))

def JsVal.isNullish : JsVal → Bool
  | .nul => true
  | .undef => true
  | _ => false

/-- Property read `v[k]` for non-throwing receivers: object lookup, and
`undefined` on every non-object receiver (including `null` under the
optional-chaining reads where it occurs). -/
def jsField : JsVal → String → JsVal
  | .obj f, k =>
    match f.find? (fun kv => kv.1 == k) with
    | some kv => kv.2
    | none => .undef
  | _, _ => (.undef)

/-- JS truthiness (numbers in parsed policies are integral, so the NaN
corner of number coercion does not arise). -/
def jsTruthy : JsVal → Bool
  | .undef => false
  | .nul => false
  | .bool b => b
  | .num n => n != 0
  | .str s => s != ""
  | .arr _ => true
  | .obj _ => true

/-- Strict equality `v === s` against a string literal. -/
def jsEqStr (v : JsVal) (s : String) : Bool :=
  match v with
  | .str t => t == s
  | _ => false

/-- Strict equality `v === n` against a number. -/
def jsEqNum (v : JsVal) (n : Int) : Bool :=
  match v with
  | .num m => m == n
  | _ => false

/-- `typeof v`. -/
def jsTypeof : JsVal → String
  | .undef => "undefined"
  | .nul => "object"
  | .bool _ => "boolean"
  | .num _ => "number"
  | .str _ => "string"
  | .arr _ => "object"
  | .obj _ => "object"

/-- String interpolation of a JS value inside a template literal.
(Nested array display approximates `Array.prototype.toString`; it is
only ever applied to strings on the paths the claims exercise.) -/
def jsDisplay : JsVal → String
  | .undef => "undefined"
  | .nul => "null"
  | .bool b => if b then "true" else "false"
  | .num n => toString n
  | .str s => s
  | .arr l => String.intercalate "," (l.attach.map fun x => jsDisplay x.1)
  | .obj _ => "[object Object]"
termination_by v => sizeOf v
decreasing_by
  · have h1 := List.sizeOf_lt_of_mem x.2
    simp only [JsVal.arr.sizeOf_spec]
    omega

/-- `.length` on a non-null receiver: array or string length,
`undefined` otherwise. -/
def jsLengthD : JsVal → JsVal
  | .arr l => .num l.length
  | .str s => .num s.length
  | _ => (.undef)

/-- Index read `v[i]` on a non-null receiver. -/
def jsIndexD : JsVal → Nat → JsVal
  | .arr l, i => (l[i]?).getD .undef
  | .str s, i =>
    match s.data[i]? with
    | some c => .str (String.mk [c])
    | none => .undef
  | _, _ => (.undef)

/-! ### The external world

All effects the embedded code performs are read from or recorded
against this record: wall clock, file system, yaml parser, process
environment, the fresh identifiers drawn by one pipeline invocation,
the replay registry, the adapter's token store and the child process
exit status. -/

structure World where
  /-- `Date.now()` in epoch milliseconds. -/
  now : Nat
  /-- File contents by path (`fs.existsSync` / `fs.readFileSync`). -/
  fs : String → Option String
  /-- `yaml.parse`; `none` models a parse exception. -/
  yamlParse : String → Option JsVal
  /-- `process.version`. -/
  nodeVersion : String
  /-- `process.env.RUNNER_OS ?? process.platform`. -/
  runnerOs : String
  /-- `process.env.GUARD_VERSION`. -/
  guardVersionEnv : Option String
  /-- `new Date(s).getTime()`; `none` models `NaN` (unparsable date). -/
  dateVal : String → Option Nat
  /-- `new Date(t).toISOString()`. -/
  isoOfTime : Nat → String
  /-- In-memory used-token registry (`token_registry.ts` set). -/
  registry : List String
  /-- The `uuidv7()` drawn for `token_id` in this pipeline call. -/
  pipeTokenId : String
  /-- The `uuidv7()` drawn for `audit_ref` in this pipeline call. -/
  pipeAuditRef : String
  /-- Identity of the fresh ephemeral ED25519 key pair. -/
  pipeKeyId : Nat
  /-- The openclaw token store (`/tmp/openclaw_tokens/<hash>.json`). -/
  tokenStore : String → Option VerifiedToken
  /-- Exit code of the spawned child process. -/
  spawnExit : String → List String → Int

/-! ### Hashing and fingerprints (`canonical_proposal.ts`,
`environment_fingerprint.ts`)

The digest `H` stands for `sha256(·).digest('hex')`. -/

/-- `hashPolicyFile`: digest of the policy file bytes, or the
deterministic marker when the file is missing.  (The `policy_read_error`
marker for read exceptions has no counterpart because the modelled file
system either yields content or nothing.) -/
def hashPolicyFile (H : String → String) (W : World) (policyPath : String) : String :=
  match W.fs policyPath with
  | none => "policy_not_found"
  | some content => H content

/-- Plain `JSON.stringify` (insertion order, no key sorting). -/
def serRawJVal : JVal → List Char
  | .str s => jsonQuote s.data
  | .arr l => lbrackC :: commaJoin (l.attach.map fun x => serRawJVal x.1) ++ [rbrackC]
  | .obj f => lbraceC :: commaJoin (f.attach.map fun x =>
      jsonQuote x.1.1.data ++ colonC :: serRawJVal x.1.2) ++ [rbraceC]
termination_by v => sizeOf v
decreasing_by
  · have h1 := List.sizeOf_lt_of_mem x.2
    simp only [JVal.arr.sizeOf_spec]
    omega
  · have h1 := List.sizeOf_lt_of_mem x.2
    have h2 : sizeOf x.1.2 < sizeOf x.1 := by
      obtain ⟨a, b⟩ := x.1
      simp
    simp only [JVal.obj.sizeOf_spec]
    omega

def jsonStringify (v : JVal) : String := String.mk (serRawJVal v)

/-- `buildEnvironmentFingerprint` (3-field reference profile, matching
the 7-step kernel): digest of the sorted-key `JSON.stringify` of
`{node_version, policy_hash, runner_os}`.  The code rebuilds the
component record with keys sorted and then applies plain
`JSON.stringify`, so the field list below is already in sorted order. -/
def buildEnvironmentFingerprint (H : String → String) (W : World)
    (policyPath : String) : String :=
  H (jsonStringify (.obj [("node_version", .str W.nodeVersion),
      ("policy_hash", .str (hashPolicyFile H W policyPath)),
      ("runner_os", .str W.runnerOs)]))

/-- `buildCanonicalProposal`: defensive args copy, policy digest,
guard version from the environment (default `0.3.0`), and the wall
clock floored to the minute (`setSeconds(0,0)`). -/
def buildCanonicalProposal (H : String → String) (W : World) (command : String)
    (args : List String) (policyPath : String) : CanonicalProposal :=
  { command := command
    args := args
    policy_path := policyPath
    policy_hash := hashPolicyFile H W policyPath
    guard_version := W.guardVersionEnv.getD "0.3.0"
    timestamp_floor := W.isoOfTime (W.now - W.now % 60000) }

/-- `canonicalHash`: digest of the sorted-key serialization of the
proposal. -/
def canonicalHash (H : String → String) (p : CanonicalProposal) : String :=
  H (canonicalStringify (proposalJVal p))

/-! ### Policy evaluator (`core/evaluate.ts`) -/

structure ExecutionRequest where
  command : String
  args : List String
  policyPath : Option String

structure EvaluationResult where
  verdict : String
  proposalHash : String
  reason : String
deriving DecidableEq

/-- `generateProposalHash`: digest of the plain `JSON.stringify` of
`{command, args, timestamp}` with the full (unfloored) ISO time. -/
def generateProposalHash (H : String → String) (W : World) (command : String)
    (args : List String) : String :=
  H (jsonStringify (.obj [("command", .str command),
      ("args", .arr (args.map .str)),
      ("timestamp", .str (W.isoOfTime W.now))]))

/-- A policy document that passed `loadPolicy` validation: `default`
is exactly `DENY` or `ALLOW`, `rules` is an array — whose elements
remain unvalidated JS values (the TS code casts without checking). -/
structure LoadedPolicy where
  dflt : String
  rules : List JsVal

def isObjectLike : JsVal → Bool
  | .obj _ => true
  | .arr _ => true
  | _ => false

/-- `loadPolicy`: missing file, parse exception, non-object document,
invalid `default` or non-array `rules` all yield `none` (fail-closed). -/
def loadPolicy (W : World) (policyPath : String) : Option LoadedPolicy :=
  match W.fs policyPath with
  | none => none
  | some content =>
    match W.yamlParse content with
    | none => none
    | some parsed =>
      if !jsTruthy parsed || !isObjectLike parsed then none
      else if !(jsEqStr (jsField parsed "default") "DENY" ||
                jsEqStr (jsField parsed "default") "ALLOW") then none
      else
        match jsField parsed "rules" with
        | .arr rules =>
          some { dflt := match jsField parsed "default" with
                         | .str s => s
                         | _ => ""
                 rules := rules }
        | _ => none

/-- Element-wise argv check
`args.every((arg, i) => arg === rule.args[i] || rule.args[i] === '*')`. -/
def argsEvery (args : List String) (ra : JsVal) : Bool :=
  args.enum.all fun ia =>
    jsEqStr (jsIndexD ra ia.1) ia.2 || jsEqStr (jsIndexD ra ia.1) "*"

/-- `matchesRule`.  Accessing `.command` on a `null` rule entry throws
a TypeError (modelled as `.error ()`); all later accesses are on
non-null receivers and cannot throw. -/
def matchesRule (command : String) (args : List String) (rule : JsVal) :
    Except Unit Bool :=
  if rule.isNullish then .error ()
  else if !(jsEqStr (jsField rule "command") command) then .ok false
  else
    let ra := jsField rule "args"
    if !(jsTruthy ra) then .ok true
    else if jsEqNum (jsLengthD ra) 1 && jsEqStr (jsIndexD ra 0) "*" then .ok true
    else if !(jsEqNum (jsLengthD ra) (Int.ofNat args.length)) then .ok false
    else .ok (argsEvery args ra)

/-- The `for (const rule of policy.rules)` walk: first match wins,
exceptions propagate. -/
def findMatch (command : String) (args : List String) :
    List JsVal → Except Unit (Option JsVal)
  | [] => .ok none
  | r :: rest =>
    match matchesRule command args r with
    | .error e => .error e
    | .ok true => .ok (some r)
    | .ok false => findMatch command args rest

/-- The quote character as a string, for assembling reason texts. -/
def dq : String := String.mk [quoteC]

/-- `evaluate`: fail-closed policy evaluation.  The result is `.error`
exactly when the rule walk throws (a `null` entry in `rules`). -/
def evaluate (H : String → String) (W : World) (request : ExecutionRequest) :
    Except Unit EvaluationResult :=
  let proposalHash := generateProposalHash H W request.command request.args
  let policyPath := request.policyPath.getD "./policy.yaml"
  match loadPolicy W policyPath with
  | none =>
    .ok { verdict := "DENY"
          proposalHash := proposalHash
          reason := "No valid policy found. Fail-closed: DENY." }
  | some policy =>
    match findMatch request.command request.args policy.rules with
    | .error e => .error e
    | .ok (some rule) =>
      .ok { verdict := "ALLOW"
            proposalHash := proposalHash
            reason := "Policy match: command=" ++ dq ++
              jsDisplay (jsField rule "command") ++ dq ++ " scope=" ++ dq ++
              (let sc := jsField rule "scope"
               if sc.isNullish then "unset" else jsDisplay sc) ++ dq }
    | .ok none =>
      .ok { verdict := policy.dflt
            proposalHash := proposalHash
            reason := "No rule matched. Default: " ++ policy.dflt }

/-! ### Execution kernel (`execution_kernel.ts`, 7-step variant) -/

/-- The typed denials of `errors.ts` (`ExecutionDeniedErrorType`). -/
inductive DenialType where
  | TOKEN_EXPIRED
  | DECISION_NOT_ALLOW
  | TOKEN_REPLAYED
  | PROPOSAL_HASH_MISMATCH
  | POLICY_HASH_MISMATCH
  | ENV_FINGERPRINT_MISMATCH
  | SIGNATURE_INVALID
deriving DecidableEq

def denialName : DenialType → String
  | .TOKEN_EXPIRED => "TOKEN_EXPIRED"
  | .DECISION_NOT_ALLOW => "DECISION_NOT_ALLOW"
  | .TOKEN_REPLAYED => "TOKEN_REPLAYED"
  | .PROPOSAL_HASH_MISMATCH => "PROPOSAL_HASH_MISMATCH"
  | .POLICY_HASH_MISMATCH => "POLICY_HASH_MISMATCH"
  | .ENV_FINGERPRINT_MISMATCH => "ENV_FINGERPRINT_MISMATCH"
  | .SIGNATURE_INVALID => "SIGNATURE_INVALID"

structure KernelResult where
  exit_code : Int
  token_id : String
  audit_ref : String
  executed : Bool
deriving DecidableEq

/-- Observable side effects, in the order they are performed:
registry mark (`markTokenUsed`), audit emission, process spawn, and —
for the pipeline — the call into the sealed evaluator. -/
inductive Effect where
  | markUsed (tokenId : String)
  | audit (executed : Bool) (error : Option DenialType)
  | spawn (command : String) (args : List String)
  | evalPolicy
deriving DecidableEq

structure KernelOutcome where
  result : Except DenialType KernelResult
  registry : List String
  trace : List Effect

/-- TTL test `now > new Date(expires_at)` with NaN semantics: an
unparsable `expires_at` never counts as expired. -/
def ttlExpired (W : World) (expiresAt : String) : Bool :=
  match W.dateVal expiresAt with
  | some t => decide (t < W.now)
  | none => false

/-- `executeWithAuthority`: the 7-step verification chain in source
order. -/
def executeWithAuthority (H : String → String) (W : World) (command : String)
    (args : List String) (proposal : CanonicalProposal) (token : VerifiedToken) :
    KernelOutcome :=
  -- Step 1: TTL
  if ttlExpired W token.expires_at then
    { result := .error .TOKEN_EXPIRED, registry := W.registry
      trace := [.audit false (some .TOKEN_EXPIRED)] }
  -- Step 2: decision gate (ALLOW only)
  else if token.decision ≠ "ALLOW" then
    { result := .error .DECISION_NOT_ALLOW, registry := W.registry
      trace := [.audit false (some .DECISION_NOT_ALLOW)] }
  -- Step 3: replay prevention (token_id in the registry set)
  else if W.registry.contains token.token_id then
    { result := .error .TOKEN_REPLAYED, registry := W.registry
      trace := [.audit false (some .TOKEN_REPLAYED)] }
  -- Step 4: proposal hash binding
  else if token.proposal_hash ≠ canonicalHash H proposal then
    { result := .error .PROPOSAL_HASH_MISMATCH, registry := W.registry
      trace := [.audit false (some .PROPOSAL_HASH_MISMATCH)] }
  -- Step 5: policy hash binding
  else if token.policy_hash ≠ hashPolicyFile H W proposal.policy_path then
    { result := .error .POLICY_HASH_MISMATCH, registry := W.registry
      trace := [.audit false (some .POLICY_HASH_MISMATCH)] }
  -- Step 6: environment fingerprint binding
  else if token.environment_fingerprint ≠
      buildEnvironmentFingerprint H W proposal.policy_path then
    { result := .error .ENV_FINGERPRINT_MISMATCH, registry := W.registry
      trace := [.audit false (some .ENV_FINGERPRINT_MISMATCH)] }
  -- Step 7: ED25519 signature over the payload without sig/public key
  else if !(ed25519Verify token.public_key_hex
      (canonicalStringify (payloadJVal token.toTokenPayload))
      token.issuer_signature) then
    { result := .error .SIGNATURE_INVALID, registry := W.registry
      trace := [.audit false (some .SIGNATURE_INVALID)] }
  else
    -- markTokenUsed BEFORE spawn, audit with executed=true in between
    { result := .ok { exit_code := W.spawnExit command args
                      token_id := token.token_id
                      audit_ref := token.audit_ref
                      executed := true }
      registry := token.token_id :: W.registry
      trace := [.markUsed token.token_id, .audit true none, .spawn command args] }

/-! ### Authority pipeline (`authority_pipeline.ts`) -/

/-- `GateMode` from `config/mode.ts` (a string enum). -/
inductive GateMode where
  | STRICT
  | PERMISSIVE
deriving DecidableEq

def GateMode.str : GateMode → String
  | .STRICT => "STRICT"
  | .PERMISSIVE => "PERMISSIVE"

/-- JS whitespace set (the class `\s` and the `String.prototype.trim`
set coincide). -/
def isJsWs (c : Char) : Bool :=
  let n := c.toNat
  n == 9 || n == 10 || n == 11 || n == 12 || n == 13 || n == 32 ||
  n == 160 || n == 5760 || (8192 ≤ n && n ≤ 8202) || n == 8232 ||
  n == 8233 || n == 8239 || n == 8287 || n == 12288 || n == 65279

/-- `String.prototype.trim()`. -/
def jsTrim (s : String) : String :=
  String.mk (((s.data.dropWhile isJsWs).reverse.dropWhile isJsWs).reverse)

structure PipelineResult where
  decision : String
  proposal_hash : String
  reason : String
  token : Option VerifiedToken
  proposal : Option CanonicalProposal
  gate_mode : String
deriving DecidableEq

/-- Issue a signed token (step 5/6 of `_pipeline`): fresh ephemeral
key pair, 5-minute TTL, canonical payload signed with the private key,
public key attached. -/
def issueToken (W : World) (command : String)
    (args : List String) (proposalHash policyHash envFingerprint : String)
    (tokenDecision : String) (mode : GateMode) (coreAllowed allowWithAudit : Bool) :
    VerifiedToken :=
  let guardVersion := W.guardVersionEnv.getD "0.4.0"
  let scope : TokenScope :=
    { action := "execute"
      resource := jsTrim (command ++ " " ++ String.intercalate " " args)
      constraints :=
        { policy_version := policyHash
          gate_mode := mode.str
          guard_version := guardVersion
          audited_permit :=
            if allowWithAudit && !coreAllowed then some "true" else none } }
  let payload : TokenPayload :=
    { token_id := W.pipeTokenId
      proposal_hash := proposalHash
      policy_hash := policyHash
      environment_fingerprint := envFingerprint
      policy_version := policyHash
      decision := tokenDecision
      audit_ref := W.pipeAuditRef
      expires_at := W.isoOfTime (W.now + 300000)
      issued_at := W.isoOfTime W.now
      scope := scope
      gate_mode := mode.str
      guard_version := guardVersion }
  { toTokenPayload := payload
    issuer_signature :=
      ed25519Sign W.pipeKeyId (canonicalStringify (payloadJVal payload))
    public_key_hex := W.pipeKeyId }

/-- `_pipeline`: proposal, fingerprints, sealed evaluation, the
mode-gated decision matrix, then token issuance.  Throws exactly when
`evaluate` throws. -/
def pipelineInner (H : String → String) (W : World) (command : String)
    (args : List String) (policyPath : String) (mode : GateMode)
    (allowWithAudit : Bool) : Except Unit PipelineResult :=
  let proposal := buildCanonicalProposal H W command args policyPath
  let proposalHash := canonicalHash H proposal
  let policyHash := hashPolicyFile H W policyPath
  let envFingerprint := buildEnvironmentFingerprint H W policyPath
  match evaluate H W { command := command, args := args, policyPath := some policyPath } with
  | .error e => .error e
  | .ok evalResult =>
    let coreAllowed := evalResult.verdict == "ALLOW"
    if coreAllowed then
      .ok { decision := "ALLOW"
            proposal_hash := proposalHash
            reason := evalResult.reason
            token := some (issueToken W command args proposalHash policyHash
              envFingerprint "ALLOW" mode coreAllowed allowWithAudit)
            proposal := some proposal
            gate_mode := mode.str }
    else if mode = GateMode.PERMISSIVE && allowWithAudit then
      .ok { decision := "ALLOW"
            proposal_hash := proposalHash
            reason := evalResult.reason
            token := some (issueToken W command args proposalHash policyHash
              envFingerprint "ALLOW" mode coreAllowed allowWithAudit)
            proposal := some proposal
            gate_mode := mode.str }
    else if mode = GateMode.PERMISSIVE then
      .ok { decision := "HOLD"
            proposal_hash := proposalHash
            reason := evalResult.reason
            token := some (issueToken W command args proposalHash policyHash
              envFingerprint "HOLD" mode coreAllowed allowWithAudit)
            proposal := some proposal
            gate_mode := mode.str }
    else
      .ok { decision := "STOP"
            proposal_hash := proposalHash
            reason := evalResult.reason
            token := none
            proposal := none
            gate_mode := mode.str }

structure PipelineOutcome where
  result : PipelineResult
  trace : List Effect

/-- `runAuthorityPipeline`: total, fail-closed wrapper — any internal
exception becomes a STOP with a `pipeline_error` reason.  (The JS
exception message appended to the reason is not modelled; claims
inspect decisions and reason codes.)  The sealed evaluator is invoked
in every run, hence the `evalPolicy` trace entry. -/
def runAuthorityPipeline (H : String → String) (W : World) (command : String)
    (args : List String) (policyPath : String) (mode : GateMode := .STRICT)
    (allowWithAudit : Bool := false) : PipelineOutcome :=
  match pipelineInner H W command args policyPath mode allowWithAudit with
  | .ok r => { result := r, trace := [.evalPolicy] }
  | .error _ =>
    { result := { decision := "STOP"
                  proposal_hash := "error"
                  reason := "pipeline_error"
                  token := none
                  proposal := none
                  gate_mode := mode.str }
      trace := [.evalPolicy] }

/-! ### Scope policy and token store (`adapters/openclaw`) -/

/-- `getRuleScope`: scope of the first rule whose `command` field
equals the requested command — the rule's `args` are never consulted.
The whole body is wrapped in a try/catch returning `null`, so a `null`
rule entry encountered before a match aborts the walk.  The unchecked
`as CommandScope` cast is modelled by carrying the scope value's
string form (non-string scopes compare unequal to `net`/`fs`/`admin`
either way). -/
def scopeWalk (command : String) : List JsVal → Option String
  | [] => none
  | r :: rest =>
    if r.isNullish then none
    else if jsEqStr (jsField r "command") command then
      some (match jsField r "scope" with
            | .str s => s
            | .nul => "safe"
            | .undef => "safe"
            | v => jsDisplay v)
    else scopeWalk command rest

def getRuleScope (W : World) (command : String) (policyPath : String) :
    Option String :=
  match W.fs policyPath with
  | none => none
  | some content =>
    match W.yamlParse content with
    | none => none
    | some policy =>
      let rules := jsField policy "rules"
      if !jsTruthy rules then none
      else
        match rules with
        | .arr l => scopeWalk command l
        | _ => none

/-- `net`, `fs` and `admin` scopes require a human-approved token. -/
def scopeRequiresPreApprovedToken (scope : String) : Bool :=
  scope == "net" || scope == "fs" || scope == "admin"

def isAdminScope (scope : String) : Bool :=
  scope == "admin"

/-- `retrieveToken` from the openclaw token store: pre-flight TTL
check with the same NaN semantics as the kernel; an expired stored
token is treated as absent.  (The expired token's on-disk cleanup has
no observable effect within one call and is not recorded.) -/
def retrieveToken (W : World) (proposalHash : String) : Option VerifiedToken :=
  match W.tokenStore proposalHash with
  | none => none
  | some token =>
    if ttlExpired W token.expires_at then none else some token

/-! ### OpenClaw proposal validation (`openclaw_proposal.ts`) -/

/-- The shell metacharacter class rejected in commands:
pipe, ampersand, semicolon, angle brackets, backtick, dollar, double
and single quote, parentheses, LF and CR. -/
def isShellMeta (c : Char) : Bool :=
  let n := c.toNat
  n == 124 || n == 38 || n == 59 || n == 60 || n == 62 || n == 96 ||
  n == 36 || n == 34 || n == 39 || n == 40 || n == 41 || n == 10 || n == 13

/-- The single-quote character as a string, for reason texts. -/
def sq : String := String.mk [Char.ofNat 39]

/-- A validated OpenClaw proposal (interface `OpenClawProposal`;
`env_allowlist` is audit metadata never read by any modelled operation
and is omitted). -/
structure OpenClawProposal where
  session_id : String
  turn_id : String
  agent_id : String
  command : String
  args : List String
  cwd : Option String
  policy_ref : Option String
  requested_mode : Option String
deriving DecidableEq

inductive ValidationOutcome where
  | valid (proposal : OpenClawProposal)
  | invalid (reason : String) (reason_code : String)
deriving DecidableEq

/-- `typeof v === 'string' && v.trim()` (required-field test). -/
def isNonBlankString (v : JsVal) : Bool :=
  match v with
  | .str s => jsTrim s != ""
  | _ => false

def strOfJs : JsVal → String
  | .str s => s
  | _ => ""

/-- Optional field that must be a string when present. -/
def optStringViolation (v : JsVal) : Bool :=
  match v with
  | .undef => false
  | .str _ => false
  | _ => true

/-- `requested_mode` must be STRICT or PERMISSIVE when present. -/
def reqModeViolation (v : JsVal) : Bool :=
  match v with
  | .undef => false
  | v => !(jsEqStr v "STRICT" || jsEqStr v "PERMISSIVE")

/-- Walk the `args` array in index order: the first non-string element
is a VALIDATION_ERROR, the first CR/LF-carrying string is a
SHELL_STRING_REJECTED. -/
def checkArgs : List JsVal → Nat → Option (String × String)
  | [], _ => none
  | a :: rest, i =>
    match a with
    | .str s =>
      if s.data.any (fun c => c.toNat == 10 || c.toNat == 13) then
        some ("args[" ++ toString i ++ "] contains newline — potential injection vector",
          "SHELL_STRING_REJECTED")
      else checkArgs rest (i + 1)
    | _ => some ("args[" ++ toString i ++ "] is not a string", "VALIDATION_ERROR")

/-- `validateOpenClawProposal`: shell-string rejection and schema
validation, in source order.  The command is trimmed before the
whitespace and metacharacter tests. -/
def validateOpenClawProposal (input : JsVal) : ValidationOutcome :=
  if !(isObjectLike input) then
    .invalid "Proposal must be an object" "VALIDATION_ERROR"
  else if !(jsEqStr (jsField input "source") "openclaw") then
    .invalid ("source must be " ++ sq ++ "openclaw" ++ sq ++ ", got: " ++
      jsDisplay (jsField input "source")) "VALIDATION_ERROR"
  else if !(isNonBlankString (jsField input "session_id")) then
    .invalid "Missing or empty field: session_id" "VALIDATION_ERROR"
  else if !(isNonBlankString (jsField input "turn_id")) then
    .invalid "Missing or empty field: turn_id" "VALIDATION_ERROR"
  else if !(isNonBlankString (jsField input "agent_id")) then
    .invalid "Missing or empty field: agent_id" "VALIDATION_ERROR"
  else if !(isNonBlankString (jsField input "command")) then
    .invalid "Missing or empty field: command" "VALIDATION_ERROR"
  else
    let command := jsTrim (strOfJs (jsField input "command"))
    if command.data.any isJsWs then
      .invalid ("command contains whitespace — must be argv[0] only, got: " ++
        dq ++ command ++ dq ++
        ". Shell strings are not accepted. Decompose into separate tool proposals.")
        "SHELL_STRING_REJECTED"
    else if command.data.any isShellMeta then
      .invalid ("command contains shell metacharacters — rejected: " ++
        dq ++ command ++ dq) "SHELL_STRING_REJECTED"
    else
      match jsField input "args" with
      | .arr rawArgs =>
        (match checkArgs rawArgs 0 with
         | some rc => .invalid rc.1 rc.2
         | none =>
           if optStringViolation (jsField input "cwd") then
             .invalid "cwd must be a string if provided" "VALIDATION_ERROR"
           else if optStringViolation (jsField input "policy_ref") then
             .invalid "policy_ref must be a string if provided" "VALIDATION_ERROR"
           else if reqModeViolation (jsField input "requested_mode") then
             .invalid "requested_mode must be STRICT or PERMISSIVE" "VALIDATION_ERROR"
           else
             .valid { session_id := strOfJs (jsField input "session_id")
                      turn_id := strOfJs (jsField input "turn_id")
                      agent_id := strOfJs (jsField input "agent_id")
                      command := command
                      args := rawArgs.map strOfJs
                      cwd := match jsField input "cwd" with
                             | .str s => some s
                             | _ => none
                      policy_ref := match jsField input "policy_ref" with
                                    | .str s => some s
                                    | _ => none
                      requested_mode := match jsField input "requested_mode" with
                                        | .str s => some s
                                        | _ => none })
      | v =>
        .invalid ("args must be an array of strings, got: " ++ jsTypeof v ++
          ". Do not pass shell strings — split into individual arguments.")
          "VALIDATION_ERROR"

/-! ### The OpenClaw adapter (`execute_with_authority.ts`) -/

/-- The adapter's structured result (interface
`OpenClawExecuteResult`; the embedded `audit_entry`, which duplicates
these fields, is not repeated). -/
structure OpenClawExecuteResult where
  verdict : String
  proposal_hash : String
  short_hash : String
  token_id : Option String
  reason : String
  reason_code : String
  audit_ref : Option String
  executed : Bool
  exit_code : Option Int
deriving DecidableEq

structure AdapterOutcome where
  result : OpenClawExecuteResult
  registry : List String
  trace : List Effect

/-- `earlyStop`: validation failures produce a STOP with the dummy
`unknown` hash before any hashing or policy work. -/
def earlyStop (reason : String) (reasonCode : String) : OpenClawExecuteResult :=
  { verdict := "STOP"
    proposal_hash := "unknown"
    short_hash := String.take "unknown" 8
    token_id := none
    reason := reason
    reason_code := reasonCode
    audit_ref := none
    executed := false
    exit_code := none }

/-- `executeWithOpenClawAuthority`: validate, canonicalize, scope
check, token-store lookup, pipeline, kernel — in source order.  Kernel
denial messages are abbreviated to the denial's name (claims inspect
`reason_code`, which carries the exact name).  Note two faithful
quirks of the source: the scope lookup and the pipeline run use the
request-level `policy_path` while canonicalization honours the
proposal's `policy_ref` override. -/
def executeWithOpenClawAuthority (H : String → String) (W : World)
    (openclawProposal : JsVal) (reqPolicyPath : Option String)
    (reqMode : Option GateMode) (reqAllowWithAudit : Option Bool) :
    AdapterOutcome :=
  let policyPath := reqPolicyPath.getD "./policy.yaml"
  let mode := reqMode.getD .STRICT
  let allowWithAudit := reqAllowWithAudit.getD false
  -- Step 1: validate
  match validateOpenClawProposal openclawProposal with
  | .invalid reason rc =>
    { result := earlyStop reason rc, registry := W.registry, trace := [] }
  | .valid p =>
    -- Step 2: canonicalize (policy_ref overrides the default path)
    let propPolicyPath := p.policy_ref.getD policyPath
    let proposal := buildCanonicalProposal H W p.command p.args propPolicyPath
    let proposalHash := canonicalHash H proposal
    let shortHash := String.take proposalHash 8
    -- Step 3: scope elevation check (on the request-level policy path)
    let scope := (getRuleScope W p.command policyPath).getD "safe"
    if isAdminScope scope && mode = GateMode.STRICT then
      { result := { verdict := "STOP"
                    proposal_hash := proposalHash
                    short_hash := shortHash
                    token_id := none
                    reason := "command " ++ dq ++ p.command ++ dq ++
                      " is admin scope — requires human-approved token. " ++
                      "In STRICT mode, admin commands cannot be auto-executed."
                    reason_code := "SCOPE_ELEVATION_STOP"
                    audit_ref := none
                    executed := false
                    exit_code := none }
        registry := W.registry
        trace := [] }
    else
      -- Step 4: pre-approved token from the store
      match retrieveToken W proposalHash with
      | some storedToken =>
        let k := executeWithAuthority H W p.command p.args proposal storedToken
        match k.result with
        | .ok kr =>
          { result := { verdict := "ALLOW"
                        proposal_hash := proposalHash
                        short_hash := shortHash
                        token_id := some storedToken.token_id
                        reason := "Human-approved token executed successfully"
                        reason_code := "PRE_APPROVED_TOKEN_ALLOW"
                        audit_ref := some kr.audit_ref
                        executed := true
                        exit_code := some kr.exit_code }
            registry := k.registry
            trace := k.trace }
        | .error e =>
          { result := { verdict := "STOP"
                        proposal_hash := proposalHash
                        short_hash := shortHash
                        token_id := some storedToken.token_id
                        reason := denialName e
                        reason_code := denialName e
                        audit_ref := none
                        executed := false
                        exit_code := none }
            registry := k.registry
            trace := k.trace }
      | none =>
        -- Step 5: scope elevation hold when a human token is required
        if scopeRequiresPreApprovedToken scope then
          { result := { verdict := "HOLD"
                        proposal_hash := proposalHash
                        short_hash := shortHash
                        token_id := none
                        reason := "command " ++ dq ++ p.command ++ dq ++ " is " ++
                          scope ++ " scope — requires human-approved token. " ++
                          "proposal_hash: " ++ shortHash ++
                          ". Store approval via token_store.storeToken()."
                        reason_code := "SCOPE_ELEVATION_HOLD"
                        audit_ref := none
                        executed := false
                        exit_code := none }
            registry := W.registry
            trace := [] }
        else
          -- Step 6: authority pipeline (on the request-level policy path)
          let pr := runAuthorityPipeline H W p.command p.args policyPath mode
            allowWithAudit
          if pr.result.decision == "STOP" then
            { result := { verdict := "STOP"
                          proposal_hash := proposalHash
                          short_hash := shortHash
                          token_id := none
                          reason := pr.result.reason
                          reason_code := "POLICY_MISS_STOP"
                          audit_ref := none
                          executed := false
                          exit_code := none }
              registry := W.registry
              trace := pr.trace }
          else if pr.result.decision == "HOLD" then
            { result := { verdict := "HOLD"
                          proposal_hash := proposalHash
                          short_hash := shortHash
                          token_id := pr.result.token.map (·.token_id)
                          reason := pr.result.reason
                          reason_code := "POLICY_MISS_HOLD"
                          audit_ref := pr.result.token.map (·.audit_ref)
                          executed := false
                          exit_code := none }
              registry := W.registry
              trace := pr.trace }
          else
            -- Step 7: ALLOW — run the kernel
            match pr.result.token, pr.result.proposal with
            | some t, some prop =>
              let isAuditedPermit := t.scope.constraints.gate_mode == mode.str &&
                t.scope.constraints.audited_permit == some "true"
              let rc := if isAuditedPermit then "AUDITED_PERMIT"
                        else "POLICY_MATCH_ALLOW"
              let k := executeWithAuthority H W p.command p.args prop t
              match k.result with
              | .ok kr =>
                { result := { verdict := "ALLOW"
                              proposal_hash := proposalHash
                              short_hash := shortHash
                              token_id := some t.token_id
                              reason := pr.result.reason
                              reason_code := rc
                              audit_ref := some kr.audit_ref
                              executed := true
                              exit_code := some kr.exit_code }
                  registry := k.registry
                  trace := pr.trace ++ k.trace }
              | .error e =>
                { result := { verdict := "STOP"
                              proposal_hash := proposalHash
                              short_hash := shortHash
                              token_id := some t.token_id
                              reason := denialName e
                              reason_code := denialName e
                              audit_ref := none
                              executed := false
                              exit_code := none }
                  registry := k.registry
                  trace := pr.trace ++ k.trace }
            | _, _ =>
              { result := earlyStop
                  "[INVARIANT VIOLATION] ALLOW decision without token — STOP."
                  "PIPELINE_ERROR"
                registry := W.registry
                trace := pr.trace }

/-! ### Claim C1 — the kernel's fixed verification order -/

/-- Following the spec's words (§4.7): the seven checks, in the
documented fixed order, each paired with its typed denial. -/
def specKernelChecks (H : String → String) (W : World)
    (proposal : CanonicalProposal) (token : VerifiedToken) :
    List (Bool × DenialType) :=
  [ (!(ttlExpired W token.expires_at), .TOKEN_EXPIRED),
    (decide (token.decision = "ALLOW"), .DECISION_NOT_ALLOW),
    (!(W.registry.contains token.token_id), .TOKEN_REPLAYED),
    (decide (token.proposal_hash = canonicalHash H proposal),
      .PROPOSAL_HASH_MISMATCH),
    (decide (token.policy_hash = hashPolicyFile H W proposal.policy_path),
      .POLICY_HASH_MISMATCH),
    (decide (token.environment_fingerprint =
      buildEnvironmentFingerprint H W proposal.policy_path),
      .ENV_FINGERPRINT_MISMATCH),
    (ed25519Verify token.public_key_hex
      (canonicalStringify (payloadJVal token.toTokenPayload))
      token.issuer_signature, .SIGNATURE_INVALID) ]

/-- The first check of the spec's ordered list that fails, if any. -/
def specFirstDenial (H : String → String) (W : World)
    (proposal : CanonicalProposal) (token : VerifiedToken) : Option DenialType :=
  ((specKernelChecks H W proposal token).find? (fun c => !c.1)).map (·.2)

/-- Reference kernel behavior, following the spec's words (§4.7): the
first failing check raises its typed denial with an `executed=false`
audit record, the registry untouched and the spawn primitive not
invoked; when all seven pass, the token is marked used, an
`executed=true` audit record is emitted, and the spawn happens —
in that order. -/
def specKernelReference (H : String → String) (W : World) (command : String)
    (args : List String) (proposal : CanonicalProposal) (token : VerifiedToken) :
    KernelOutcome :=
  match specFirstDenial H W proposal token with
  | some e =>
    { result := .error e, registry := W.registry
      trace := [.audit false (some e)] }
  | none =>
    { result := .ok { exit_code := W.spawnExit command args
                      token_id := token.token_id
                      audit_ref := token.audit_ref
                      executed := true }
      registry := token.token_id :: W.registry
      trace := [.markUsed token.token_id, .audit true none, .spawn command args] }

/-- C1: `executeWithAuthority` performs the seven verification checks
in the fixed order TTL, decision-gate, replay, proposal-hash binding,
policy-hash binding, environment-fingerprint binding, signature; the
first failing check raises its typed denial (TOKEN_EXPIRED,
DECISION_NOT_ALLOW, TOKEN_REPLAYED, PROPOSAL_HASH_MISMATCH,
POLICY_HASH_MISMATCH, ENV_FINGERPRINT_MISMATCH, SIGNATURE_INVALID
respectively), and on any such failure the spawn primitive is never
invoked (the trace holds only the failure audit record, and the
registry is unchanged). -/
theorem kernel_seven_step_order (H : String → String) (W : World)
    (command : String) (args : List String) (proposal : CanonicalProposal)
    (token : VerifiedToken) :
    executeWithAuthority H W command args proposal token =
      specKernelReference H W command args proposal token := by
  by_cases h1 : ttlExpired W token.expires_at
  · simp [executeWithAuthority, specKernelReference, specFirstDenial,
      specKernelChecks, List.find?, h1]
  by_cases h2 : token.decision = "ALLOW"
  case neg =>
    simp [executeWithAuthority, specKernelReference, specFirstDenial,
      specKernelChecks, List.find?, h1, h2]
  by_cases h3 : token.token_id ∈ W.registry
  · simp [executeWithAuthority, specKernelReference, specFirstDenial,
      specKernelChecks, List.find?, h1, h2, h3]
  by_cases h4 : token.proposal_hash = canonicalHash H proposal
  case neg =>
    simp [executeWithAuthority, specKernelReference, specFirstDenial,
      specKernelChecks, List.find?, h1, h2, h3, h4]
  by_cases h5 : token.policy_hash = hashPolicyFile H W proposal.policy_path
  case neg =>
    simp [executeWithAuthority, specKernelReference, specFirstDenial,
      specKernelChecks, List.find?, h1, h2, h3, h4, h5]
  by_cases h6 : token.environment_fingerprint =
      buildEnvironmentFingerprint H W proposal.policy_path
  case neg =>
    simp [executeWithAuthority, specKernelReference, specFirstDenial,
      specKernelChecks, List.find?, h1, h2, h3, h4, h5, h6]
  by_cases h7 : ed25519Verify token.public_key_hex
      (canonicalStringify (payloadJVal token.toTokenPayload))
      token.issuer_signature = true
  case neg =>
    simp [executeWithAuthority, specKernelReference, specFirstDenial,
      specKernelChecks, List.find?, h1, h2, h3, h4, h5, h6, h7]
  · simp [executeWithAuthority, specKernelReference, specFirstDenial,
      specKernelChecks, List.find?, h1, h2, h3, h4, h5, h6, h7]

/-! ### Concrete worlds used by witnesses and counterexamples -/

/-- Date parsing used by the concrete worlds: the marker `PAST` parses
to epoch 0, everything else to a far-future instant. -/
def wDateVal : String → Option Nat :=
  fun s => if s = "PAST" then some 0 else some 9999999999

def wPolicyText : String := "POLICY"

/-- Parsed form of the concrete policy: `default: DENY` with a single
rule allowing `echo` (any args — the rule has no `args` field). -/
def wPolicyDoc : JsVal :=
  .obj [("default", .str "DENY"),
        ("rules", .arr [.obj [("command", .str "echo")]])]

def wWorld : World :=
  { now := 1000000
    fs := fun p => if p = "policy.yaml" then some wPolicyText else none
    yamlParse := fun c => if c = wPolicyText then some wPolicyDoc else none
    nodeVersion := "v20"
    runnerOs := "linux"
    guardVersionEnv := none
    dateVal := wDateVal
    isoOfTime := fun _ => "ISO"
    registry := []
    pipeTokenId := "tid1"
    pipeAuditRef := "ar1"
    pipeKeyId := 7
    tokenStore := fun _ => none
    spawnExit := fun _ _ => 0 }

def wProposal : CanonicalProposal :=
  buildCanonicalProposal id wWorld "echo" ["hi"] "policy.yaml"

/-- The token the pipeline issues for `(echo, [hi])` in `wWorld` under
STRICT (the policy matches, so the evaluator allows). -/
def wToken : VerifiedToken :=
  issueToken wWorld "echo" ["hi"] (canonicalHash id wProposal)
    (hashPolicyFile id wWorld "policy.yaml")
    (buildEnvironmentFingerprint id wWorld "policy.yaml")
    "ALLOW" GateMode.STRICT true false

/-! ### Claim C2 — replay behavior of the kernel -/

/-- C2 counterexample: presenting the same token twice does NOT always
yield TOKEN_REPLAYED on the second presentation.  A HOLD token is
denied at the decision gate on the first presentation, is therefore
never marked used, and the second presentation raises the same
DECISION_NOT_ALLOW — not TOKEN_REPLAYED. -/
def cxHoldToken : VerifiedToken :=
  { token_id := "tid-hold"
    proposal_hash := "p"
    policy_hash := "ph"
    environment_fingerprint := "e"
    policy_version := "ph"
    decision := "HOLD"
    audit_ref := "ar"
    expires_at := "FUTURE"
    issued_at := "ISO"
    scope := { action := "execute", resource := "x"
               constraints := { policy_version := "ph", gate_mode := "STRICT"
                                guard_version := "g", audited_permit := none } }
    gate_mode := "STRICT"
    guard_version := "g"
    issuer_signature := ed25519Sign 7 "m"
    public_key_hex := 7 }

def cxProposal : CanonicalProposal :=
  { command := "x", args := [], policy_path := "p", policy_hash := "ph"
    guard_version := "g", timestamp_floor := "ISO" }

theorem token_replay_claim_counterexample :
    (executeWithAuthority id wWorld "x" [] cxProposal cxHoldToken).result =
      .error .DECISION_NOT_ALLOW ∧
    (executeWithAuthority id
        { wWorld with
          registry := (executeWithAuthority id wWorld "x" [] cxProposal
            cxHoldToken).registry }
        "x" [] cxProposal cxHoldToken).result = .error .DECISION_NOT_ALLOW ∧
    DenialType.DECISION_NOT_ALLOW ≠ DenialType.TOKEN_REPLAYED :=
  ⟨rfl, rfl, by decide⟩

/-- C2 (amended): when the first presentation of a token succeeds, the
second presentation (same kernel inputs, registry threaded through)
yields TOKEN_REPLAYED; and the successful presentation records the
token as used (markTokenUsed) before the spawn primitive is invoked,
as witnessed by the effect order of the trace.  (If the first
presentation is denied, the token is not marked used and the second
presentation repeats the same denial, as the counterexample shows.) -/
theorem token_replay_second_presentation (H : String → String) (W : World)
    (c : String) (a : List String) (p : CanonicalProposal) (t : VerifiedToken)
    (kr : KernelResult)
    (h : (executeWithAuthority H W c a p t).result = .ok kr) :
    (executeWithAuthority H
        { W with registry := (executeWithAuthority H W c a p t).registry }
        c a p t).result = .error .TOKEN_REPLAYED ∧
    (executeWithAuthority H W c a p t).trace =
      [.markUsed t.token_id, .audit true none, .spawn c a] := by
  by_cases h1 : ttlExpired W t.expires_at
  · simp [executeWithAuthority, h1] at h
  by_cases h2 : t.decision = "ALLOW"
  case neg => simp [executeWithAuthority, h1, h2] at h
  by_cases h3 : t.token_id ∈ W.registry
  · simp [executeWithAuthority, h1, h2, h3] at h
  by_cases h4 : t.proposal_hash = canonicalHash H p
  case neg => simp [executeWithAuthority, h1, h2, h3, h4] at h
  by_cases h5 : t.policy_hash = hashPolicyFile H W p.policy_path
  case neg => simp [executeWithAuthority, h1, h2, h3, h4, h5] at h
  by_cases h6 : t.environment_fingerprint =
      buildEnvironmentFingerprint H W p.policy_path
  case neg => simp [executeWithAuthority, h1, h2, h3, h4, h5, h6] at h
  by_cases h7 : ed25519Verify t.public_key_hex
      (canonicalStringify (payloadJVal t.toTokenPayload)) t.issuer_signature = true
  case neg => simp [executeWithAuthority, h1, h2, h3, h4, h5, h6, h7] at h
  have hfst : executeWithAuthority H W c a p t =
      { result := .ok { exit_code := W.spawnExit c a, token_id := t.token_id
                        audit_ref := t.audit_ref, executed := true }
        registry := t.token_id :: W.registry
        trace := [.markUsed t.token_id, .audit true none, .spawn c a] } := by
    simp [executeWithAuthority, h1, h2, h3, h4, h5, h6, h7]
  rw [hfst]
  constructor
  · have h1' : ttlExpired { W with registry := t.token_id :: W.registry }
        t.expires_at = ttlExpired W t.expires_at := rfl
    simp [executeWithAuthority, h1', h1, h2]
  · rfl

theorem token_replay_second_presentation_witness :
    ((executeWithAuthority id wWorld "echo" ["hi"] wProposal wToken).result =
      .ok { exit_code := 0, token_id := "tid1", audit_ref := "ar1",
            executed := true }) ∧
    (executeWithAuthority id
        { wWorld with
          registry := (executeWithAuthority id wWorld "echo" ["hi"] wProposal
            wToken).registry }
        "echo" ["hi"] wProposal wToken).result = .error .TOKEN_REPLAYED := by
  have hOk : (executeWithAuthority id wWorld "echo" ["hi"] wProposal wToken).result =
      .ok { exit_code := 0, token_id := "tid1", audit_ref := "ar1",
            executed := true } := by
    simp +decide [executeWithAuthority, wToken, issueToken, wWorld, wProposal,
      buildCanonicalProposal, ttlExpired, wDateVal, ed25519Verify, ed25519Sign]
  exact ⟨hOk,
    (token_replay_second_presentation id wWorld "echo" ["hi"] wProposal wToken _
      hOk).1⟩

/-! ### Claim C3 — signature binding of issued tokens -/

/-- Helper: every token the pipeline hands out carries a signature by
its own embedded key over the canonical serialization of its own
payload (all fields except `issuer_signature` and `public_key_hex`). -/
theorem issued_token_signature (H : String → String) (W : World) (c : String)
    (a : List String) (pp : String) (mode : GateMode) (audit : Bool)
    (t : VerifiedToken)
    (ht : (runAuthorityPipeline H W c a pp mode audit).result.token = some t) :
    t.issuer_signature =
      ed25519Sign t.public_key_hex
        (canonicalStringify (payloadJVal t.toTokenPayload)) := by
  unfold runAuthorityPipeline at ht
  rcases hinner : pipelineInner H W c a pp mode audit with e | r
  · rw [hinner] at ht
    simp at ht
  · rw [hinner] at ht
    simp at ht
    unfold pipelineInner at hinner
    rcases hev : evaluate H W { command := c, args := a, policyPath := some pp }
      with e | ev
    · rw [hev] at hinner
      simp at hinner
    · rw [hev] at hinner
      simp at hinner
      split_ifs at hinner with hca hpa hpm
      · rcases hinner with ⟨rfl⟩
        simp only [Option.some.injEq] at ht
        subst ht
        simp [issueToken, ed25519Sign]
      · rcases hinner with ⟨rfl⟩
        simp only [Option.some.injEq] at ht
        subst ht
        simp [issueToken, ed25519Sign]
      · rcases hinner with ⟨rfl⟩
        simp only [Option.some.injEq] at ht
        subst ht
        simp [issueToken, ed25519Sign]
      · rcases hinner with ⟨rfl⟩
        simp at ht

/-- C3 counterexample: mutating the signed field `expires_at` of a
pipeline-issued token to a past instant and presenting it to the
kernel yields TOKEN_EXPIRED (step 1 fires before the signature step),
not SIGNATURE_INVALID as the claim states for every signed-field
mutation. -/
theorem signature_binding_claim_counterexample :
    ((runAuthorityPipeline id wWorld "echo" ["hi"] "policy.yaml"
        .STRICT false).result.token = some wToken) ∧
    ((executeWithAuthority id wWorld "echo" ["hi"] wProposal
        { wToken with expires_at := "PAST" }).result = .error .TOKEN_EXPIRED) ∧
    DenialType.TOKEN_EXPIRED ≠ DenialType.SIGNATURE_INVALID := by
  refine ⟨?_, ?_, by decide⟩
  · simp +decide [runAuthorityPipeline, pipelineInner, evaluate, loadPolicy,
      findMatch, matchesRule, wWorld, wPolicyText, wPolicyDoc, jsField,
      jsTruthy, jsEqStr, isObjectLike, JsVal.isNullish, wToken, wProposal,
      buildCanonicalProposal]
  · simp +decide [executeWithAuthority, ttlExpired, wWorld, wDateVal, wToken,
      issueToken]

/-- C3 (amended): a token issued by the authority pipeline passes the
kernel's signature verification step unmodified; and any mutation of
any signed field (the payload: every field except `issuer_signature`
and `public_key_hex`) without re-signing that still passes the kernel's
steps 1–6 is rejected at step 7 with SIGNATURE_INVALID.  (A mutation
that trips an earlier step — e.g. rewriting `expires_at` to the past —
raises that step's denial instead, per the counterexample.) -/
theorem signature_binding_amended (H : String → String) (W : World)
    (c : String) (a : List String) (pp : String) (mode : GateMode) (audit : Bool)
    (t : VerifiedToken)
    (ht : (runAuthorityPipeline H W c a pp mode audit).result.token = some t) :
    (ed25519Verify t.public_key_hex
      (canonicalStringify (payloadJVal t.toTokenPayload))
      t.issuer_signature = true) ∧
    (∀ (W' : World) (c' : String) (a' : List String) (p' : CanonicalProposal)
      (t' : VerifiedToken),
      t'.issuer_signature = t.issuer_signature →
      t'.public_key_hex = t.public_key_hex →
      t'.toTokenPayload ≠ t.toTokenPayload →
      ttlExpired W' t'.expires_at = false →
      t'.decision = "ALLOW" →
      t'.token_id ∉ W'.registry →
      t'.proposal_hash = canonicalHash H p' →
      t'.policy_hash = hashPolicyFile H W' p'.policy_path →
      t'.environment_fingerprint = buildEnvironmentFingerprint H W' p'.policy_path →
      (executeWithAuthority H W' c' a' p' t').result = .error .SIGNATURE_INVALID) := by
  have hsig := issued_token_signature H W c a pp mode audit t ht
  constructor
  · rw [hsig]
    simp [ed25519Sign, ed25519Verify]
  · intro W' c' a' p' t' hsigEq hpubEq hPayNe hs1 hs2 hs3 hs4 hs5 hs6
    have hne : canonicalStringify (payloadJVal t'.toTokenPayload) ≠
        canonicalStringify (payloadJVal t.toTokenPayload) := by
      intro hEq
      apply hPayNe
      apply payload_ser_inj
      have h2 := congrArg String.data hEq
      simpa [canonicalStringify] using h2
    have hver : ed25519Verify t'.public_key_hex
        (canonicalStringify (payloadJVal t'.toTokenPayload))
        t'.issuer_signature = false := by
      rw [hsigEq, hpubEq, hsig]
      simp [ed25519Sign, ed25519Verify]
      intro hEq
      exact absurd hEq.symm hne
    simp [executeWithAuthority, hs1, hs2, hs3, hs4, hs5, hs6, hver]

theorem signature_binding_amended_witness :
    ((runAuthorityPipeline id wWorld "echo" ["hi"] "policy.yaml"
        .STRICT false).result.token = some wToken) ∧
    (ed25519Verify wToken.public_key_hex
      (canonicalStringify (payloadJVal wToken.toTokenPayload))
      wToken.issuer_signature = true) ∧
    ((executeWithAuthority id wWorld "echo" ["hi"] wProposal
        { wToken with issued_at := "MUT" }).result = .error .SIGNATURE_INVALID) := by
  have hpt : (runAuthorityPipeline id wWorld "echo" ["hi"] "policy.yaml"
      .STRICT false).result.token = some wToken := by
    simp +decide [runAuthorityPipeline, pipelineInner, evaluate, loadPolicy,
      findMatch, matchesRule, wWorld, wPolicyText, wPolicyDoc, jsField,
      jsTruthy, jsEqStr, isObjectLike, JsVal.isNullish, wToken, wProposal,
      buildCanonicalProposal]
  have hthm := signature_binding_amended id wWorld "echo" ["hi"] "policy.yaml"
    .STRICT false wToken hpt
  refine ⟨hpt, hthm.1, ?_⟩
  apply hthm.2
  · rfl
  · rfl
  · intro hEq
    have h2 := congrArg TokenPayload.issued_at hEq
    simp +decide [wToken, issueToken, wWorld] at h2
  · simp +decide [ttlExpired, wWorld, wDateVal, wToken, issueToken]
  · rfl
  · simp [wWorld]
  · rfl
  · rfl
  · rfl

/-! ### Claim C4 — fail-closed policy loading; evaluator totality -/

/-- Helper: each of the four malformed-policy conditions makes
`loadPolicy` fail closed. -/
theorem loadPolicy_none_of_bad (W : World) (path : String)
    (hbad : W.fs path = none ∨
      (∃ content, W.fs path = some content ∧ W.yamlParse content = none) ∨
      (∃ content parsed, W.fs path = some content ∧
        W.yamlParse content = some parsed ∧
        (!jsTruthy parsed || !isObjectLike parsed) = true) ∨
      (∃ content parsed, W.fs path = some content ∧
        W.yamlParse content = some parsed ∧
        jsEqStr (jsField parsed "default") "DENY" = false ∧
        jsEqStr (jsField parsed "default") "ALLOW" = false) ∨
      (∃ content parsed, W.fs path = some content ∧
        W.yamlParse content = some parsed ∧
        ∀ l, jsField parsed "rules" ≠ .arr l)) :
    loadPolicy W path = none := by
  unfold loadPolicy
  rcases hbad with h | ⟨content, hc, hp⟩ | ⟨content, parsed, hc, hp, hcheck⟩ |
    ⟨content, parsed, hc, hp, hd1, hd2⟩ | ⟨content, parsed, hc, hp, hrules⟩
  · rw [h]
  · simp only [hc, hp]
  · simp only [hc, hp]
    simp [hcheck]
  · simp only [hc, hp]
    by_cases hob : (!jsTruthy parsed || !isObjectLike parsed) = true
    · simp [hob]
    · simp [hob, hd1, hd2]
  · simp only [hc, hp]
    by_cases hob : (!jsTruthy parsed || !isObjectLike parsed) = true
    · simp [hob]
    · by_cases hdef : (jsEqStr (jsField parsed "default") "DENY" ||
          jsEqStr (jsField parsed "default") "ALLOW") = true
      · simp only [hob, hdef]
        simp only [Bool.not_eq_true] at hob
        cases hjr : jsField parsed "rules" with
        | arr l => exact absurd hjr (hrules l)
        | _ => simp [hob, hjr]
      · simp [hob, hdef]

/-- Helper: `matchesRule` can only throw on a nullish rule entry. -/
theorem matchesRule_no_throw (c : String) (a : List String) (r : JsVal)
    (h : r.isNullish = false) : ∃ b, matchesRule c a r = .ok b := by
  unfold matchesRule
  rw [h]
  simp only [Bool.false_eq_true, if_false]
  split_ifs <;> exact ⟨_, rfl⟩

/-- Helper: the rule walk never throws when no entry is nullish. -/
theorem findMatch_no_throw (c : String) (a : List String) (rules : List JsVal)
    (h : ∀ r ∈ rules, r.isNullish = false) :
    ∃ o, findMatch c a rules = .ok o := by
  induction rules with
  | nil => exact ⟨none, rfl⟩
  | cons r rest ih =>
    obtain ⟨b, hb⟩ := matchesRule_no_throw c a r (h r (List.mem_cons_self r rest))
    obtain ⟨o, ho⟩ := ih fun r' hr' => h r' (List.mem_cons_of_mem r hr')
    cases b with
    | true => exact ⟨some r, by rw [findMatch, hb]⟩
    | false => exact ⟨o, by rw [findMatch, hb, ho]⟩

/-- C4 counterexample: a policy that loads successfully (valid
`default`, array `rules`) but contains a `null` rules entry makes
`evaluate` throw a TypeError (`rule.command` on `null`) — `evaluate`
is not total. -/
def cxNullRuleWorld : World :=
  { wWorld with
    fs := fun p => if p = "policy.yaml" then some "NULLPOLICY" else none
    yamlParse := fun c =>
      if c = "NULLPOLICY" then
        some (.obj [("default", .str "DENY"), ("rules", .arr [.nul])])
      else none }

theorem evaluate_total_claim_counterexample :
    evaluate id cxNullRuleWorld
      { command := "x", args := [], policyPath := some "policy.yaml" } =
      .error () := rfl

/-- C4 (amended): on any of the four malformed-policy conditions
(missing file, parse failure, invalid `default`, non-array `rules`),
`evaluate` returns verdict DENY with the fail-closed reason; and
`evaluate` is total (never throws) provided the loaded policy has no
`null`/`undefined` entry in `rules` (a `null` entry makes it throw,
per the counterexample). -/
theorem evaluate_fail_closed_amended (H : String → String) (W : World)
    (c : String) (a : List String) (path : String) :
    ((W.fs path = none ∨
      (∃ content, W.fs path = some content ∧ W.yamlParse content = none) ∨
      (∃ content parsed, W.fs path = some content ∧
        W.yamlParse content = some parsed ∧
        (!jsTruthy parsed || !isObjectLike parsed) = true) ∨
      (∃ content parsed, W.fs path = some content ∧
        W.yamlParse content = some parsed ∧
        jsEqStr (jsField parsed "default") "DENY" = false ∧
        jsEqStr (jsField parsed "default") "ALLOW" = false) ∨
      (∃ content parsed, W.fs path = some content ∧
        W.yamlParse content = some parsed ∧
        ∀ l, jsField parsed "rules" ≠ .arr l)) →
      evaluate H W { command := c, args := a, policyPath := some path } =
        .ok { verdict := "DENY"
              proposalHash := generateProposalHash H W c a
              reason := "No valid policy found. Fail-closed: DENY." }) ∧
    ((∀ pol, loadPolicy W path = some pol → ∀ r ∈ pol.rules,
        r.isNullish = false) →
      ∃ res, evaluate H W { command := c, args := a, policyPath := some path } =
        .ok res) := by
  constructor
  · intro hbad
    have hnone := loadPolicy_none_of_bad W path hbad
    unfold evaluate
    simp only [Option.getD_some, hnone]
  · intro hok
    unfold evaluate
    simp only [Option.getD_some]
    cases hpol : loadPolicy W path with
    | none => exact ⟨_, rfl⟩
    | some pol =>
      obtain ⟨o, ho⟩ := findMatch_no_throw c a pol.rules (hok pol hpol)
      simp only [ho]
      cases o with
      | none => exact ⟨_, rfl⟩
      | some rule => exact ⟨_, rfl⟩

theorem evaluate_fail_closed_amended_witness :
    (evaluate id { wWorld with fs := fun _ => none }
      { command := "x", args := [], policyPath := some "policy.yaml" } =
      .ok { verdict := "DENY"
            proposalHash := generateProposalHash id
              { wWorld with fs := fun _ => none } "x" []
            reason := "No valid policy found. Fail-closed: DENY." }) ∧
    (∃ res, evaluate id wWorld
      { command := "echo", args := ["hi"], policyPath := some "policy.yaml" } =
      .ok res) := by
  constructor
  · exact (evaluate_fail_closed_amended id { wWorld with fs := fun _ => none }
      "x" [] "policy.yaml").1 (Or.inl rfl)
  · refine (evaluate_fail_closed_amended id wWorld "echo" ["hi"]
      "policy.yaml").2 ?_
    intro pol hpol r hr
    simp +decide [loadPolicy, wWorld, wPolicyText, wPolicyDoc, jsField,
      jsTruthy, jsEqStr, isObjectLike] at hpol
    rw [← hpol] at hr
    simp at hr
    rw [hr]
    rfl

/-! ### Claim C5 — first-match rule walk with wildcard semantics -/

/-- `PolicyRule` (evaluate.ts): a decoded rule of a valid policy. -/
structure PolicyRule where
  command : String
  args : Option (List String)
  scope : Option String

/-- The JS object a decoded rule denotes. -/
def ruleJs (r : PolicyRule) : JsVal :=
  .obj ([("command", .str r.command)] ++
    (match r.args with
     | some a => [("args", .arr (a.map .str))]
     | none => []) ++
    (match r.scope with
     | some s => [("scope", .str s)]
     | none => []))

/-- The argv constraint as the specification words it: absent matches
any argv; exactly `[*]` matches any argv; otherwise lengths must agree
and each position must be equal or the rule element must be `*`. -/
def specArgsMatch (argv : List String) : Option (List String) → Bool
  | none => true
  | some ra =>
    if ra = ["*"] then true
    else decide (argv.length = ra.length) &&
      (argv.zip ra).all fun p => decide (p.1 = p.2) || decide (p.2 = "*")

/-- The rule matcher as the specification words it. -/
def specMatches (c : String) (argv : List String) (r : PolicyRule) : Bool :=
  decide (c = r.command) && specArgsMatch argv r.args

theorem jsField_ruleJs_command (r : PolicyRule) :
    jsField (ruleJs r) "command" = .str r.command := by
  obtain ⟨rc, rargs, rscope⟩ := r
  cases rargs <;> cases rscope <;> rfl

theorem jsField_ruleJs_args (rc : String) (rargs : Option (List String))
    (rscope : Option String) :
    jsField (ruleJs ⟨rc, rargs, rscope⟩) "args" =
      (match rargs with
       | some a => .arr (a.map .str)
       | none => .undef) := by
  cases rargs <;> cases rscope <;> rfl

theorem jsField_ruleJs_scope (r : PolicyRule) :
    jsField (ruleJs r) "scope" =
      (match r.scope with | some s => .str s | none => .undef) := by
  obtain ⟨rc, rargs, rscope⟩ := r
  cases rargs <;> cases rscope <;> rfl

theorem ruleJs_not_nullish (r : PolicyRule) : (ruleJs r).isNullish = false := by
  obtain ⟨rc, rargs, rscope⟩ := r
  rfl

theorem all_congr_mem {α : Type} {l : List α} {p q : α → Bool}
    (h : ∀ x ∈ l, p x = q x) : l.all p = l.all q := by
  induction l with
  | nil => rfl
  | cons x xs ih =>
    simp only [List.all_cons]
    rw [h x (List.mem_cons_self x xs),
      ih fun y hy => h y (List.mem_cons_of_mem x hy)]

theorem argsEvery_zip : ∀ (args ra : List String),
    args.length = ra.length →
    argsEvery args (.arr (ra.map .str)) =
      (args.zip ra).all fun p => decide (p.1 = p.2) || decide (p.2 = "*") := by
  intro args
  induction args with
  | nil =>
    intro ra h
    cases ra with
    | nil => rfl
    | cons r rs => simp at h
  | cons a as ih =>
    intro ra h
    cases ra with
    | nil => simp at h
    | cons r rs =>
      simp only [List.length_cons, Nat.succ.injEq] at h
      unfold argsEvery
      rw [List.enum_cons', List.all_cons, List.all_map, List.zip_cons_cons,
        List.all_cons]
      have h0 : (jsEqStr (jsIndexD (.arr ((r :: rs).map .str)) 0) a ||
          jsEqStr (jsIndexD (.arr ((r :: rs).map .str)) 0) "*") =
          (decide ((a, r).1 = (a, r).2) || decide ((a, r).2 = "*")) := by
        apply Bool.eq_iff_iff.mpr
        simp only [jsIndexD, jsEqStr, List.map_cons, List.getElem?_cons_zero,
          Option.getD_some, Bool.or_eq_true, beq_iff_eq, decide_eq_true_eq]
        exact or_congr eq_comm Iff.rfl
      rw [h0]
      congr 1
      have htail : ∀ ia ∈ as.enum,
          ((fun ia : Nat × String =>
            jsEqStr (jsIndexD (.arr ((r :: rs).map .str)) ia.1) ia.2 ||
            jsEqStr (jsIndexD (.arr ((r :: rs).map .str)) ia.1) "*") ∘
              Prod.map (· + 1) id) ia =
          (fun ia : Nat × String =>
            jsEqStr (jsIndexD (.arr (rs.map .str)) ia.1) ia.2 ||
            jsEqStr (jsIndexD (.arr (rs.map .str)) ia.1) "*") ia := by
        intro ia _
        obtain ⟨i, x⟩ := ia
        simp [Function.comp, Prod.map, jsIndexD]
      rw [all_congr_mem htail]
      have := ih rs h
      unfold argsEvery at this
      exact this

theorem matchesRule_ruleJs (c : String) (a : List String) (r : PolicyRule) :
    matchesRule c a (ruleJs r) = .ok (specMatches c a r) := by
  obtain ⟨rc, rargs, rscope⟩ := r
  have hcmd : jsEqStr (jsField (ruleJs ⟨rc, rargs, rscope⟩) "command") c =
      decide (c = rc) := by
    rw [jsField_ruleJs_command]
    apply Bool.eq_iff_iff.mpr
    simp only [jsEqStr, beq_iff_eq, decide_eq_true_eq]
    exact eq_comm
  by_cases hc : c = rc
  · subst hc
    cases rargs with
    | none =>
      simp only [matchesRule, ruleJs_not_nullish, hcmd, jsField_ruleJs_args]
      simp [jsTruthy, specMatches, specArgsMatch]
    | some ra =>
      have hstar : (jsEqNum (jsLengthD (.arr (ra.map .str))) 1 &&
          jsEqStr (jsIndexD (.arr (ra.map .str)) 0) "*") =
          decide (ra = ["*"]) := by
        apply Bool.eq_iff_iff.mpr
        cases ra with
        | nil => simp [jsLengthD, jsIndexD, jsEqNum, jsEqStr]
        | cons r1 rtl =>
          cases rtl with
          | nil => simp [jsLengthD, jsIndexD, jsEqNum, jsEqStr]
          | cons r2 rtl2 =>
            simp [jsLengthD, jsIndexD, jsEqNum, jsEqStr]
            omega
      have hlen : jsEqNum (jsLengthD (.arr (ra.map .str)))
          (Int.ofNat a.length) = decide (a.length = ra.length) := by
        apply Bool.eq_iff_iff.mpr
        simp [jsLengthD, jsEqNum]
        omega
      simp only [matchesRule, ruleJs_not_nullish, hcmd, jsField_ruleJs_args]
      rw [hstar, hlen]
      by_cases hw : ra = ["*"]
      · simp [hw, jsTruthy, specMatches, specArgsMatch]
      · by_cases hl : a.length = ra.length
        · simp [hw, hl, jsTruthy, specMatches, specArgsMatch,
            argsEvery_zip a ra hl]
        · simp [hw, hl, jsTruthy, specMatches, specArgsMatch]
  · simp only [matchesRule, ruleJs_not_nullish, hcmd]
    simp [hc, specMatches]

theorem findMatch_map_ruleJs (c : String) (a : List String) :
    ∀ R : List PolicyRule, findMatch c a (R.map ruleJs) =
      .ok ((R.find? (specMatches c a)).map ruleJs) := by
  intro R
  induction R with
  | nil => rfl
  | cons r rest ih =>
    rw [List.map_cons, findMatch, matchesRule_ruleJs]
    cases h : specMatches c a r with
    | true => simp [List.find?_cons_of_pos, h]
    | false => simp [List.find?_cons_of_neg, h, ih]

/-- C5: on a valid policy whose rules decode to `R`, `evaluate` walks
the rules in order and returns ALLOW for the first rule matching per
the wildcard semantics (absent args match any argv, `[*]` matches any
argv, otherwise positional equality with per-element `*`); with no
match it returns the policy default with the no-rule-matched reason. -/
theorem evaluate_first_match_rule (H : String → String) (W : World)
    (c : String) (a : List String) (pp : Option String) (dflt : String)
    (R : List PolicyRule)
    (hpol : loadPolicy W (pp.getD "./policy.yaml") =
      some { dflt := dflt, rules := R.map ruleJs }) :
    evaluate H W { command := c, args := a, policyPath := pp } =
      .ok (match R.find? (specMatches c a) with
        | some r =>
          { verdict := "ALLOW"
            proposalHash := generateProposalHash H W c a
            reason := "Policy match: command=" ++ dq ++ r.command ++ dq ++
              " scope=" ++ dq ++ r.scope.getD "unset" ++ dq }
        | none =>
          { verdict := dflt
            proposalHash := generateProposalHash H W c a
            reason := "No rule matched. Default: " ++ dflt }) := by
  unfold evaluate
  simp only [hpol, findMatch_map_ruleJs]
  cases hr : R.find? (specMatches c a) with
  | none => simp
  | some r =>
    simp only [Option.map_some']
    cases hs : r.scope with
    | none =>
      simp [jsField_ruleJs_command, jsField_ruleJs_scope, jsDisplay,
        JsVal.isNullish, hs]
    | some s =>
      simp [jsField_ruleJs_command, jsField_ruleJs_scope, jsDisplay,
        JsVal.isNullish, hs]

theorem evaluate_first_match_rule_witness :
    evaluate id wWorld
      { command := "echo", args := ["hi"], policyPath := some "policy.yaml" } =
      .ok { verdict := "ALLOW"
            proposalHash := generateProposalHash id wWorld "echo" ["hi"]
            reason := "Policy match: command=" ++ dq ++ "echo" ++ dq ++
              " scope=" ++ dq ++ "unset" ++ dq } := by
  have h := evaluate_first_match_rule id wWorld "echo" ["hi"]
    (some "policy.yaml") "DENY" [⟨"echo", none, none⟩]
    (by simp +decide [loadPolicy, wWorld, wPolicyText, wPolicyDoc, ruleJs,
      jsField, jsTruthy, jsEqStr, isObjectLike])
  simpa +decide [List.find?, specMatches, specArgsMatch] using h

/-! ### Claim C6 — the pipeline decision matrix -/

def pipeRes (H : String → String) (W : World) (c : String) (a : List String)
    (pp : String) (mode : GateMode) (audit : Bool) : PipelineResult :=
  (runAuthorityPipeline H W c a pp mode audit).result

def cxAdminPolicyDoc : JsVal :=
  .obj [("default", .str "DENY"),
        ("rules", .arr [.obj [("command", .str "sudo"),
                              ("args", .arr [.str "x"]),
                              ("scope", .str "admin")]])]

def cxAdminWorld : World :=
  { wWorld with
    fs := fun p => if p = "policy.yaml" then some "ADMINPOLICY" else none
    yamlParse := fun c =>
      if c = "ADMINPOLICY" then some cxAdminPolicyDoc else none }

/-- C6 counterexample: `_pipeline` performs no admin-scope check.  A
command whose only rule carries scope `admin` (and whose args do not
even match), run PERMISSIVE with `allowWithAudit`, is denied by the
evaluator yet still receives an ALLOW token with
`audited_permit = 'true'` — the claimed "with scope not admin" guard
does not exist in the pipeline. -/
theorem pipeline_matrix_claim_counterexample :
    (∃ res, evaluate id cxAdminWorld
        { command := "sudo", args := ["y"], policyPath := some "policy.yaml" } =
        .ok res ∧ res.verdict = "DENY") ∧
    getRuleScope cxAdminWorld "sudo" "policy.yaml" = some "admin" ∧
    (pipeRes id cxAdminWorld "sudo" ["y"] "policy.yaml"
        .PERMISSIVE true).decision = "ALLOW" ∧
    ∃ t, (pipeRes id cxAdminWorld "sudo" ["y"] "policy.yaml"
        .PERMISSIVE true).token = some t ∧
      t.decision = "ALLOW" ∧ t.scope.constraints.audited_permit = some "true" := by
  refine ⟨⟨{ verdict := "DENY"
             proposalHash := generateProposalHash id cxAdminWorld "sudo" ["y"]
             reason := "No rule matched. Default: DENY" }, ?_, rfl⟩, ?_, ?_, ?_⟩
  · simp +decide [evaluate, loadPolicy, cxAdminWorld, cxAdminPolicyDoc, wWorld,
      jsField, jsTruthy, jsEqStr, isObjectLike, findMatch, matchesRule,
      JsVal.isNullish, jsEqNum, jsLengthD, jsIndexD, argsEvery]
  · simp +decide [getRuleScope, scopeWalk, cxAdminWorld, cxAdminPolicyDoc,
      wWorld, jsField, jsTruthy, jsEqStr, JsVal.isNullish]
  · simp +decide [pipeRes, runAuthorityPipeline, pipelineInner, evaluate,
      loadPolicy, cxAdminWorld, cxAdminPolicyDoc, wWorld, jsField, jsTruthy,
      jsEqStr, isObjectLike, findMatch, matchesRule, JsVal.isNullish, jsEqNum,
      jsLengthD, jsIndexD, argsEvery]
  · simp +decide [pipeRes, runAuthorityPipeline, pipelineInner, evaluate,
      loadPolicy, cxAdminWorld, cxAdminPolicyDoc, wWorld, jsField, jsTruthy,
      jsEqStr, isObjectLike, findMatch, matchesRule, JsVal.isNullish, jsEqNum,
      jsLengthD, jsIndexD, argsEvery, issueToken]

/-- C6 (amended): the mode-gated decision matrix of `_pipeline`, minus
the claimed admin-scope restriction (which the pipeline does not
implement): evaluator ALLOW yields an ALLOW token; DENY+STRICT stops
with no token; DENY+PERMISSIVE without audit yields a HOLD token;
DENY+PERMISSIVE with audit yields an ALLOW token flagged
`audited_permit = 'true'`; and an issued token's decision is ALLOW
only when the evaluator allowed or the PERMISSIVE audited case
applies — regardless of scope. -/
theorem pipeline_matrix_amended (H : String → String) (W : World)
    (c : String) (a : List String) (pp : String) (mode : GateMode)
    (audit : Bool) (res : EvaluationResult)
    (hev : evaluate H W { command := c, args := a, policyPath := some pp } =
      .ok res) :
    (res.verdict = "ALLOW" →
      (pipeRes H W c a pp mode audit).decision = "ALLOW" ∧
      ∃ t, (pipeRes H W c a pp mode audit).token = some t ∧
        t.decision = "ALLOW" ∧ t.scope.constraints.audited_permit = none) ∧
    (res.verdict ≠ "ALLOW" → mode = .STRICT →
      (pipeRes H W c a pp mode audit).decision = "STOP" ∧
      (pipeRes H W c a pp mode audit).token = none) ∧
    (res.verdict ≠ "ALLOW" → mode = .PERMISSIVE → audit = false →
      (pipeRes H W c a pp mode audit).decision = "HOLD" ∧
      ∃ t, (pipeRes H W c a pp mode audit).token = some t ∧
        t.decision = "HOLD" ∧ t.scope.constraints.audited_permit = none) ∧
    (res.verdict ≠ "ALLOW" → mode = .PERMISSIVE → audit = true →
      (pipeRes H W c a pp mode audit).decision = "ALLOW" ∧
      ∃ t, (pipeRes H W c a pp mode audit).token = some t ∧
        t.decision = "ALLOW" ∧
        t.scope.constraints.audited_permit = some "true") ∧
    (∀ t, (pipeRes H W c a pp mode audit).token = some t →
      t.decision = "ALLOW" →
      res.verdict = "ALLOW" ∨ (mode = .PERMISSIVE ∧ audit = true)) := by
  unfold pipeRes runAuthorityPipeline pipelineInner
  simp only [hev]
  by_cases hv : res.verdict = "ALLOW"
  · simp [hv, issueToken]
  · cases mode <;> cases audit <;>
      simp [hv, issueToken, GateMode.str]

theorem pipeline_matrix_amended_witness :
    (pipeRes id wWorld "echo" ["hi"] "policy.yaml" .STRICT false).decision =
      "ALLOW" ∧
    (pipeRes id wWorld "nope" [] "policy.yaml" .STRICT false).decision =
      "STOP" ∧
    (pipeRes id wWorld "nope" [] "policy.yaml" .STRICT false).token = none ∧
    (pipeRes id wWorld "nope" [] "policy.yaml" .PERMISSIVE false).decision =
      "HOLD" ∧
    (pipeRes id wWorld "nope" [] "policy.yaml" .PERMISSIVE true).decision =
      "ALLOW" := by
  have hevA : evaluate id wWorld
      { command := "echo", args := ["hi"], policyPath := some "policy.yaml" } =
      .ok { verdict := "ALLOW"
            proposalHash := generateProposalHash id wWorld "echo" ["hi"]
            reason := "Policy match: command=" ++ dq ++ "echo" ++ dq ++
              " scope=" ++ dq ++ "unset" ++ dq } := by
    simp +decide [evaluate, loadPolicy, wWorld, wPolicyText, wPolicyDoc,
      jsField, jsTruthy, jsEqStr, isObjectLike, findMatch, matchesRule,
      JsVal.isNullish, jsDisplay, dq]
  have hevD : evaluate id wWorld
      { command := "nope", args := [], policyPath := some "policy.yaml" } =
      .ok { verdict := "DENY"
            proposalHash := generateProposalHash id wWorld "nope" []
            reason := "No rule matched. Default: DENY" } := by
    simp +decide [evaluate, loadPolicy, wWorld, wPolicyText, wPolicyDoc,
      jsField, jsTruthy, jsEqStr, isObjectLike, findMatch, matchesRule,
      JsVal.isNullish]
  refine ⟨((pipeline_matrix_amended id wWorld "echo" ["hi"] "policy.yaml"
      .STRICT false _ hevA).1 rfl).1, ?_, ?_, ?_, ?_⟩
  · exact ((pipeline_matrix_amended id wWorld "nope" [] "policy.yaml"
      .STRICT false _ hevD).2.1 (by decide) rfl).1
  · exact ((pipeline_matrix_amended id wWorld "nope" [] "policy.yaml"
      .STRICT false _ hevD).2.1 (by decide) rfl).2
  · exact ((pipeline_matrix_amended id wWorld "nope" [] "policy.yaml"
      .PERMISSIVE false _ hevD).2.2.1 (by decide) rfl rfl).1
  · exact ((pipeline_matrix_amended id wWorld "nope" [] "policy.yaml"
      .PERMISSIVE true _ hevD).2.2.2.1 (by decide) rfl rfl).1

/-! ### Claim C7 — canonical serialization determinism and hash binding -/

/-- C7: (a) `canonicalStringify` is insertion-order independent: any
two structures with duplicate-free keys and the same key-sorted
normal form serialize to the same string; (b) for fixed command,
args and policy content, two proposals built in the same minute (and
same environment) have byte-identical canonical hashes; (c) under a
collision-free digest, different arg vectors give distinct hashes;
(d) under a collision-free digest and injective ISO formatting,
different minute floors give distinct hashes. -/
theorem canonical_hash_determinism (H : String → String) (W₁ W₂ : World)
    (c : String) (a₁ a₂ : List String) (pp : String) :
    (∀ v₁ v₂ : JVal, goodKeysB v₁ = true → goodKeysB v₂ = true →
      normJVal v₁ = normJVal v₂ →
      canonicalStringify v₁ = canonicalStringify v₂) ∧
    (W₁.fs pp = W₂.fs pp → W₁.guardVersionEnv = W₂.guardVersionEnv →
      W₁.isoOfTime = W₂.isoOfTime →
      W₁.now - W₁.now % 60000 = W₂.now - W₂.now % 60000 →
      canonicalHash H (buildCanonicalProposal H W₁ c a₁ pp) =
        canonicalHash H (buildCanonicalProposal H W₂ c a₁ pp)) ∧
    (Function.Injective H → a₁ ≠ a₂ →
      canonicalHash H (buildCanonicalProposal H W₁ c a₁ pp) ≠
        canonicalHash H (buildCanonicalProposal H W₁ c a₂ pp)) ∧
    (Function.Injective H → Function.Injective W₁.isoOfTime →
      W₂.isoOfTime = W₁.isoOfTime → W₂.guardVersionEnv = W₁.guardVersionEnv →
      W₂.fs pp = W₁.fs pp →
      W₁.now - W₁.now % 60000 ≠ W₂.now - W₂.now % 60000 →
      canonicalHash H (buildCanonicalProposal H W₁ c a₁ pp) ≠
        canonicalHash H (buildCanonicalProposal H W₂ c a₁ pp)) := by
  refine ⟨canonicalStringify_congr, ?_, ?_, ?_⟩
  · intro hfs hgv hiso hfloor
    unfold buildCanonicalProposal hashPolicyFile
    rw [hfs, hgv, hiso, hfloor]
  · intro hH hne heq
    apply hne
    have hs := hH heq
    have hser : serJVal (proposalJVal (buildCanonicalProposal H W₁ c a₁ pp)) =
        serJVal (proposalJVal (buildCanonicalProposal H W₁ c a₂ pp)) := by
      have := congrArg String.data hs
      simpa [canonicalStringify] using this
    have := proposal_ser_inj hser
    exact congrArg CanonicalProposal.args this
  · intro hH hiso hisoeq hgv hfs hfloor heq
    apply hfloor
    have hs := hH heq
    have hser : serJVal (proposalJVal (buildCanonicalProposal H W₁ c a₁ pp)) =
        serJVal (proposalJVal (buildCanonicalProposal H W₂ c a₁ pp)) := by
      have := congrArg String.data hs
      simpa [canonicalStringify] using this
    have hrec := proposal_ser_inj hser
    have hts := congrArg CanonicalProposal.timestamp_floor hrec
    simp only [buildCanonicalProposal] at hts
    rw [hisoeq] at hts
    exact hiso hts

theorem canonical_hash_determinism_witness :
    canonicalHash id (buildCanonicalProposal id wWorld "echo" ["hi"]
      "policy.yaml") ≠
    canonicalHash id (buildCanonicalProposal id wWorld "echo" []
      "policy.yaml") :=
  (canonical_hash_determinism id wWorld wWorld "echo" ["hi"] []
    "policy.yaml").2.2.1 (fun _ _ h => h) (by decide)

/-! ### Claim C8 — shell-string rejection and validation-first ordering -/

/-- The guards that precede the command shell-string tests. -/
def reqFieldsOk (input : JsVal) : Bool :=
  isObjectLike input && jsEqStr (jsField input "source") "openclaw" &&
  isNonBlankString (jsField input "session_id") &&
  isNonBlankString (jsField input "turn_id") &&
  isNonBlankString (jsField input "agent_id") &&
  isNonBlankString (jsField input "command")

def cxWsProposal : JsVal :=
  .obj [("source", .str "openclaw"), ("session_id", .str "s"),
        ("turn_id", .str "t"), ("agent_id", .str "a"),
        ("command", .str "ls "), ("args", .arr [])]

/-- C8 counterexample: the command is trimmed before the whitespace
test, so a command containing whitespace (here a trailing blank) is
NOT rejected — validation accepts it and silently rewrites the command
to its trimmed form. -/
theorem shell_reject_claim_counterexample :
    ("ls ").data.any isJsWs = true ∧
    validateOpenClawProposal cxWsProposal =
      .valid { session_id := "s", turn_id := "t", agent_id := "a",
               command := "ls", args := [], cwd := none, policy_ref := none,
               requested_mode := none } := by
  constructor
  · decide
  · rfl

theorem checkArgs_newline : ∀ (l : List JsVal) (i : Nat),
    (∀ v ∈ l, ∃ s, v = .str s) →
    (∃ v ∈ l, ∃ s, v = .str s ∧
      s.data.any (fun c => c.toNat == 10 || c.toNat == 13) = true) →
    ∃ r, checkArgs l i = some (r, "SHELL_STRING_REJECTED") := by
  intro l
  induction l with
  | nil =>
    intro i _ hnl
    obtain ⟨v, hv, _⟩ := hnl
    exact absurd hv (List.not_mem_nil v)
  | cons a rest ih =>
    intro i hstr hnl
    obtain ⟨s, ha⟩ := hstr a (List.mem_cons_self a rest)
    subst ha
    by_cases hs : s.data.any (fun c => c.toNat == 10 || c.toNat == 13) = true
    · exact ⟨"args[" ++ toString i ++
        "] contains newline — potential injection vector",
        by simp [checkArgs, hs]⟩
    · have hnl' : ∃ v ∈ rest, ∃ t, v = .str t ∧
          t.data.any (fun c => c.toNat == 10 || c.toNat == 13) = true := by
        obtain ⟨v, hv, t, hvt, ht⟩ := hnl
        rcases List.mem_cons.mp hv with hva | hvr
        · exfalso
          rw [hva] at hvt
          injection hvt with hst
          rw [← hst] at ht
          exact hs ht
        · exact ⟨v, hvr, t, hvt, ht⟩
      obtain ⟨r, hr⟩ := ih (i + 1)
        (fun v hv => hstr v (List.mem_cons_of_mem _ hv)) hnl'
      exact ⟨r, by simp [checkArgs, hs, hr]⟩

/-- C8 (amended): validation rejects — with SHELL_STRING_REJECTED — a
command whose TRIMMED form contains whitespace or a shell
metacharacter, and any string arg containing CR/LF; non-array args, a
wrong source tag and blank required fields are VALIDATION_ERROR; and a
rejected proposal makes the adapter stop before any hashing, scope or
policy work (empty effect trace — the evaluator is never invoked).
The unamended claim fails only in that the command is trimmed first:
leading/trailing whitespace is silently stripped, not rejected. -/
theorem validate_shell_rejection_amended (H : String → String) (W : World)
    (input : JsVal) (pp : Option String) (m : Option GateMode)
    (aud : Option Bool) :
    (reqFieldsOk input = true →
      (jsTrim (strOfJs (jsField input "command"))).data.any isJsWs = true →
      ∃ r, validateOpenClawProposal input =
        .invalid r "SHELL_STRING_REJECTED") ∧
    (reqFieldsOk input = true →
      (jsTrim (strOfJs (jsField input "command"))).data.any isJsWs = false →
      (jsTrim (strOfJs (jsField input "command"))).data.any isShellMeta = true →
      ∃ r, validateOpenClawProposal input =
        .invalid r "SHELL_STRING_REJECTED") ∧
    (∀ rawArgs, reqFieldsOk input = true →
      (jsTrim (strOfJs (jsField input "command"))).data.any isJsWs = false →
      (jsTrim (strOfJs (jsField input "command"))).data.any isShellMeta = false →
      jsField input "args" = .arr rawArgs →
      (∀ v ∈ rawArgs, ∃ s, v = .str s) →
      (∃ v ∈ rawArgs, ∃ s, v = .str s ∧
        s.data.any (fun c => c.toNat == 10 || c.toNat == 13) = true) →
      ∃ r, validateOpenClawProposal input =
        .invalid r "SHELL_STRING_REJECTED") ∧
    (reqFieldsOk input = true →
      (jsTrim (strOfJs (jsField input "command"))).data.any isJsWs = false →
      (jsTrim (strOfJs (jsField input "command"))).data.any isShellMeta = false →
      (∀ l, jsField input "args" ≠ .arr l) →
      ∃ r, validateOpenClawProposal input = .invalid r "VALIDATION_ERROR") ∧
    (isObjectLike input = true →
      jsEqStr (jsField input "source") "openclaw" = false →
      ∃ r, validateOpenClawProposal input = .invalid r "VALIDATION_ERROR") ∧
    (isObjectLike input = true →
      jsEqStr (jsField input "source") "openclaw" = true →
      (isNonBlankString (jsField input "session_id") &&
       isNonBlankString (jsField input "turn_id") &&
       isNonBlankString (jsField input "agent_id") &&
       isNonBlankString (jsField input "command")) = false →
      ∃ r, validateOpenClawProposal input = .invalid r "VALIDATION_ERROR") ∧
    (∀ r rc, validateOpenClawProposal input = .invalid r rc →
      executeWithOpenClawAuthority H W input pp m aud =
        { result := earlyStop r rc, registry := W.registry, trace := [] }) := by
  refine ⟨?_, ?_, ?_, ?_, ?_, ?_, ?_⟩
  · intro hok hws
    simp only [reqFieldsOk, Bool.and_eq_true] at hok
    obtain ⟨⟨⟨⟨⟨h1, h2⟩, h3⟩, h4⟩, h5⟩, h6⟩ := hok
    exact ⟨"command contains whitespace — must be argv[0] only, got: " ++
      dq ++ jsTrim (strOfJs (jsField input "command")) ++ dq ++
      ". Shell strings are not accepted. Decompose into separate tool proposals.",
      by simp [validateOpenClawProposal, h1, h2, h3, h4, h5, h6, hws]⟩
  · intro hok hws hmeta
    simp only [reqFieldsOk, Bool.and_eq_true] at hok
    obtain ⟨⟨⟨⟨⟨h1, h2⟩, h3⟩, h4⟩, h5⟩, h6⟩ := hok
    exact ⟨"command contains shell metacharacters — rejected: " ++ dq ++
      jsTrim (strOfJs (jsField input "command")) ++ dq,
      by simp [validateOpenClawProposal, h1, h2, h3, h4, h5, h6, hws, hmeta]⟩
  · intro rawArgs hok hws hmeta hargs hstr hnl
    simp only [reqFieldsOk, Bool.and_eq_true] at hok
    obtain ⟨⟨⟨⟨⟨h1, h2⟩, h3⟩, h4⟩, h5⟩, h6⟩ := hok
    obtain ⟨r, hr⟩ := checkArgs_newline rawArgs 0 hstr hnl
    refine ⟨r, ?_⟩
    simp [validateOpenClawProposal, h1, h2, h3, h4, h5, h6, hws, hmeta,
      hargs, hr]
  · intro hok hws hmeta hnarr
    simp only [reqFieldsOk, Bool.and_eq_true] at hok
    obtain ⟨⟨⟨⟨⟨h1, h2⟩, h3⟩, h4⟩, h5⟩, h6⟩ := hok
    cases hv : jsField input "args" with
    | arr l => exact absurd hv (hnarr l)
    | _ =>
      exact ⟨"args must be an array of strings, got: " ++
        jsTypeof (jsField input "args") ++
        ". Do not pass shell strings — split into individual arguments.",
        by simp [validateOpenClawProposal, h1, h2, h3, h4, h5, h6, hws,
          hmeta, hv]⟩
  · intro h1 h2
    exact ⟨"source must be " ++ sq ++ "openclaw" ++ sq ++ ", got: " ++
      jsDisplay (jsField input "source"),
      by simp [validateOpenClawProposal, h1, h2]⟩
  · intro h1 h2 hbad
    by_cases h3 : isNonBlankString (jsField input "session_id") = true
    · by_cases h4 : isNonBlankString (jsField input "turn_id") = true
      · by_cases h5 : isNonBlankString (jsField input "agent_id") = true
        · by_cases h6 : isNonBlankString (jsField input "command") = true
          · rw [h3, h4, h5, h6] at hbad
            simp at hbad
          · exact ⟨"Missing or empty field: command",
              by simp [validateOpenClawProposal, h1, h2, h3, h4, h5, h6]⟩
        · exact ⟨"Missing or empty field: agent_id",
            by simp [validateOpenClawProposal, h1, h2, h3, h4, h5]⟩
      · exact ⟨"Missing or empty field: turn_id",
          by simp [validateOpenClawProposal, h1, h2, h3, h4]⟩
    · exact ⟨"Missing or empty field: session_id",
        by simp [validateOpenClawProposal, h1, h2, h3]⟩
  · intro r rc hv
    unfold executeWithOpenClawAuthority
    simp only [hv]

def cxMetaProposal : JsVal :=
  .obj [("source", .str "openclaw"), ("session_id", .str "s"),
        ("turn_id", .str "t"), ("agent_id", .str "a"),
        ("command", .str "a|b"), ("args", .arr [])]

theorem validate_shell_rejection_amended_witness :
    (∃ r, validateOpenClawProposal cxMetaProposal =
      .invalid r "SHELL_STRING_REJECTED") ∧
    (∃ r rc, validateOpenClawProposal cxMetaProposal = .invalid r rc ∧
      executeWithOpenClawAuthority id wWorld cxMetaProposal none none none =
        { result := earlyStop r rc, registry := wWorld.registry,
          trace := [] }) := by
  constructor
  · exact (validate_shell_rejection_amended id wWorld cxMetaProposal none
      none none).2.1 (by decide) (by decide) (by decide)
  · obtain ⟨r, hr⟩ := (validate_shell_rejection_amended id wWorld
      cxMetaProposal none none none).2.1 (by decide) (by decide) (by decide)
    exact ⟨r, "SHELL_STRING_REJECTED", hr,
      (validate_shell_rejection_amended id wWorld cxMetaProposal none none
        none).2.2.2.2.2.2 r "SHELL_STRING_REJECTED" hr⟩

/-! ### Claim C9 — scope elevation: net/fs HOLD, admin STRICT STOP -/

/-- C9: for a validated proposal, when the command's rule scope is
`net` or `fs` and the token store holds no pre-approved token for the
proposal hash, the adapter returns verdict HOLD with reason_code
SCOPE_ELEVATION_HOLD, `executed = false`, and an empty effect trace
(nothing is spawned even though the rule matched); when the scope is
`admin` under STRICT mode, the adapter returns verdict STOP with
reason_code SCOPE_ELEVATION_STOP, no token_id, `executed = false`,
and an empty effect trace. -/
theorem scope_elevation_gating (H : String → String) (W : World)
    (input : JsVal) (pp : Option String) (m : Option GateMode)
    (aud : Option Bool) (p : OpenClawProposal) (sc : String)
    (hval : validateOpenClawProposal input = .valid p)
    (hsc : getRuleScope W p.command (pp.getD "./policy.yaml") = some sc) :
    ((sc = "net" ∨ sc = "fs") →
      retrieveToken W (canonicalHash H (buildCanonicalProposal H W p.command
        p.args (p.policy_ref.getD (pp.getD "./policy.yaml")))) = none →
      (executeWithOpenClawAuthority H W input pp m aud).result.verdict =
        "HOLD" ∧
      (executeWithOpenClawAuthority H W input pp m aud).result.reason_code =
        "SCOPE_ELEVATION_HOLD" ∧
      (executeWithOpenClawAuthority H W input pp m aud).result.executed =
        false ∧
      (executeWithOpenClawAuthority H W input pp m aud).trace = [] ∧
      ∀ c a, Effect.spawn c a ∉
        (executeWithOpenClawAuthority H W input pp m aud).trace) ∧
    (sc = "admin" → m.getD .STRICT = .STRICT →
      (executeWithOpenClawAuthority H W input pp m aud).result.verdict =
        "STOP" ∧
      (executeWithOpenClawAuthority H W input pp m aud).result.reason_code =
        "SCOPE_ELEVATION_STOP" ∧
      (executeWithOpenClawAuthority H W input pp m aud).result.token_id =
        none ∧
      (executeWithOpenClawAuthority H W input pp m aud).result.executed =
        false ∧
      (executeWithOpenClawAuthority H W input pp m aud).trace = []) := by
  constructor
  · intro hnetfs hstore
    unfold executeWithOpenClawAuthority
    simp only [hval, hsc, Option.getD_some, hstore]
    rcases hnetfs with rfl | rfl <;>
      simp +decide [isAdminScope, scopeRequiresPreApprovedToken]
  · intro hadm hm
    unfold executeWithOpenClawAuthority
    simp only [hval, hsc, Option.getD_some]
    subst hadm
    simp +decide [isAdminScope, hm]

def wNetPolicyDoc : JsVal :=
  .obj [("default", .str "DENY"),
        ("rules", .arr [.obj [("command", .str "curl"),
                              ("scope", .str "net")]])]

def wNetWorld : World :=
  { wWorld with
    fs := fun p => if p = "policy.yaml" then some "NETPOLICY" else none
    yamlParse := fun c =>
      if c = "NETPOLICY" then some wNetPolicyDoc else none }

def wNetInput : JsVal :=
  .obj [("source", .str "openclaw"), ("session_id", .str "s"),
        ("turn_id", .str "t"), ("agent_id", .str "a"),
        ("command", .str "curl"), ("args", .arr [.str "u"])]

def wAdminInput : JsVal :=
  .obj [("source", .str "openclaw"), ("session_id", .str "s"),
        ("turn_id", .str "t"), ("agent_id", .str "a"),
        ("command", .str "sudo"), ("args", .arr [])]

theorem scope_elevation_gating_witness :
    ((executeWithOpenClawAuthority id wNetWorld wNetInput (some "policy.yaml")
        none none).result.verdict = "HOLD" ∧
      (executeWithOpenClawAuthority id wNetWorld wNetInput
        (some "policy.yaml") none none).result.reason_code =
        "SCOPE_ELEVATION_HOLD" ∧
      (executeWithOpenClawAuthority id wNetWorld wNetInput
        (some "policy.yaml") none none).result.executed = false ∧
      (executeWithOpenClawAuthority id wNetWorld wNetInput
        (some "policy.yaml") none none).trace = []) ∧
    ((executeWithOpenClawAuthority id cxAdminWorld wAdminInput
        (some "policy.yaml") none none).result.verdict = "STOP" ∧
      (executeWithOpenClawAuthority id cxAdminWorld wAdminInput
        (some "policy.yaml") none none).result.reason_code =
        "SCOPE_ELEVATION_STOP" ∧
      (executeWithOpenClawAuthority id cxAdminWorld wAdminInput
        (some "policy.yaml") none none).result.token_id = none ∧
      (executeWithOpenClawAuthority id cxAdminWorld wAdminInput
        (some "policy.yaml") none none).result.executed = false) := by
  have hnet := (scope_elevation_gating id wNetWorld wNetInput
    (some "policy.yaml") none none
    { session_id := "s", turn_id := "t", agent_id := "a", command := "curl",
      args := ["u"], cwd := none, policy_ref := none, requested_mode := none }
    "net" rfl
    (by simp +decide [getRuleScope, wNetWorld, wNetPolicyDoc, scopeWalk,
      jsField, jsTruthy, jsEqStr, JsVal.isNullish])).1
    (Or.inl rfl) rfl
  have hadm := (scope_elevation_gating id cxAdminWorld wAdminInput
    (some "policy.yaml") none none
    { session_id := "s", turn_id := "t", agent_id := "a", command := "sudo",
      args := [], cwd := none, policy_ref := none, requested_mode := none }
    "admin" rfl
    (by simp +decide [getRuleScope, cxAdminWorld, cxAdminPolicyDoc, scopeWalk,
      jsField, jsTruthy, jsEqStr, JsVal.isNullish])).2
    rfl rfl
  exact ⟨⟨hnet.1, hnet.2.1, hnet.2.2.1, hnet.2.2.2.1⟩,
    ⟨hadm.1, hadm.2.1, hadm.2.2.1, hadm.2.2.2.1⟩⟩

/-! ### Claim C10 — getRuleScope matches command only, ignoring args -/

theorem scopeWalk_map_ruleJs (c : String) : ∀ R : List PolicyRule,
    scopeWalk c (R.map ruleJs) =
      (R.find? (fun r => r.command == c)).map (fun r => r.scope.getD "safe") := by
  intro R
  induction R with
  | nil => rfl
  | cons r rest ih =>
    by_cases hc : (r.command == c) = true
    · rw [List.map_cons, scopeWalk]
      simp only [ruleJs_not_nullish, jsField_ruleJs_command,
        jsField_ruleJs_scope, Bool.false_eq_true, if_false,
        List.find?_cons_of_pos _ hc]
      cases hs : r.scope with
      | none => simp [jsEqStr, hc, hs]
      | some s => simp [jsEqStr, hc, hs]
    · rw [List.map_cons, scopeWalk]
      simp only [ruleJs_not_nullish, jsField_ruleJs_command,
        Bool.false_eq_true, if_false, List.find?_cons_of_neg _ hc]
      simp [jsEqStr, hc, ih]

/-- The scope lookup on a loaded policy whose rules decode to `R`. -/
theorem getRuleScope_map_ruleJs (W : World) (c pp content : String)
    (doc : JsVal) (R : List PolicyRule)
    (hfs : W.fs pp = some content) (hparse : W.yamlParse content = some doc)
    (hrules : jsField doc "rules" = .arr (R.map ruleJs)) :
    getRuleScope W c pp =
      (R.find? (fun r => r.command == c)).map (fun r => r.scope.getD "safe") := by
  unfold getRuleScope
  simp only [hfs, hparse, hrules]
  simp [jsTruthy, scopeWalk_map_ruleJs]

def cxScopePolicyDoc : JsVal :=
  .obj [("default", .str "DENY"),
        ("rules", .arr [ruleJs ⟨"curl", some ["x"], some "net"⟩])]

def cxScopeWorld : World :=
  { wWorld with
    fs := fun p => if p = "policy.yaml" then some "SCOPEPOLICY" else none
    yamlParse := fun c =>
      if c = "SCOPEPOLICY" then some cxScopePolicyDoc else none }

def cxScopeInput : JsVal :=
  .obj [("source", .str "openclaw"), ("session_id", .str "s"),
        ("turn_id", .str "t"), ("agent_id", .str "a"),
        ("command", .str "curl"), ("args", .arr [.str "y"])]

/-- C10: `getRuleScope` returns the scope of the first rule whose
`command` equals the request command — the predicate never reads the
rule's `args` — and this drives elevation decisions even when the
evaluator's `matchesRule` rejects the request's argv: a concrete
request (`curl y` against a rule `curl [x] : net`) is rejected by the
matcher yet held for scope elevation by the adapter. -/
theorem scope_ignores_args :
    (∀ (W : World) (c pp content : String) (doc : JsVal)
      (R : List PolicyRule),
      W.fs pp = some content → W.yamlParse content = some doc →
      jsField doc "rules" = .arr (R.map ruleJs) →
      getRuleScope W c pp =
        (R.find? (fun r => r.command == c)).map
          (fun r => r.scope.getD "safe")) ∧
    matchesRule "curl" ["y"] (ruleJs ⟨"curl", some ["x"], some "net"⟩) =
      .ok false ∧
    getRuleScope cxScopeWorld "curl" "policy.yaml" = some "net" ∧
    (executeWithOpenClawAuthority id cxScopeWorld cxScopeInput
      (some "policy.yaml") none none).result.verdict = "HOLD" ∧
    (executeWithOpenClawAuthority id cxScopeWorld cxScopeInput
      (some "policy.yaml") none none).result.reason_code =
      "SCOPE_ELEVATION_HOLD" ∧
    (executeWithOpenClawAuthority id cxScopeWorld cxScopeInput
      (some "policy.yaml") none none).result.executed = false := by
  have hsc : getRuleScope cxScopeWorld "curl" "policy.yaml" = some "net" := by
    rw [getRuleScope_map_ruleJs cxScopeWorld "curl" "policy.yaml" "SCOPEPOLICY"
      cxScopePolicyDoc [⟨"curl", some ["x"], some "net"⟩] rfl rfl rfl]
    simp +decide [List.find?]
  have hmatch : matchesRule "curl" ["y"]
      (ruleJs ⟨"curl", some ["x"], some "net"⟩) = .ok false := by
    rw [matchesRule_ruleJs]
    simp +decide [specMatches, specArgsMatch]
  have hval : validateOpenClawProposal cxScopeInput =
      .valid { session_id := "s", turn_id := "t", agent_id := "a",
               command := "curl", args := ["y"], cwd := none,
               policy_ref := none, requested_mode := none } := rfl
  have hstore : ∀ h, retrieveToken cxScopeWorld h = none := fun _ => rfl
  refine ⟨getRuleScope_map_ruleJs, hmatch, hsc, ?_, ?_, ?_⟩ <;>
  · unfold executeWithOpenClawAuthority
    simp only [hval, Option.getD_some, hsc, hstore]
    simp +decide [isAdminScope, scopeRequiresPreApprovedToken]
